import Mathlib

/-!
Verification development for the gofig configuration-resolution library
(curvegrid/gofig, file gofig.go).

Go strings are modelled as lists of characters (`GoStr`); Go's int64 /
uint64 arithmetic is modelled on `Nat`/`Int` with the overflow checks of
the source made explicit against `maxI = 2^63 - 1`.

The repository delegates duration text handling to the Go standard
library's `time.ParseDuration` / `time.Duration.String`.  Those two
functions are embedded here as well, following the standard-library
sources contemporary with this repository (the pre-1.15 `time` package:
`ParseDuration` accumulates into an int64 and produces unquoted error
messages, exactly the error text `time: invalid duration invalid duration`
that gofig_test.go asserts).
-/

namespace GofigModel

/-- Go strings, modelled as lists of characters. -/
abbrev GoStr := List Char

/-- Conversion from Lean string literals to the model's strings. -/
def gstr (s : String) : GoStr := s.data

/-- ASCII lower-casing of one character (model of what `strings.ToLower`
does on the ASCII field names and tags gofig deals with). -/
def toLowerChar (c : Char) : Char :=
  if 65 ≤ c.toNat ∧ c.toNat ≤ 90 then Char.ofNat (c.toNat + 32) else c

/-- ASCII upper-casing of one character (model of `strings.ToUpper`). -/
def toUpperChar (c : Char) : Char :=
  if 97 ≤ c.toNat ∧ c.toNat ≤ 122 then Char.ofNat (c.toNat - 32) else c

/-- Model of `strings.ToLower`. -/
def toLowerStr (s : GoStr) : GoStr := s.map toLowerChar

/-- Model of `strings.ToUpper`. -/
def toUpperStr (s : GoStr) : GoStr := s.map toUpperChar

/-- Model of `strings.Join(elems, sep)`. -/
def joinStr (sep : GoStr) : List GoStr → GoStr
  | [] => []
  | [s] => s
  | s :: rest => s ++ sep ++ joinStr sep rest

/-- `'0' ≤ c ≤ '9'`, the digit test used byte-wise throughout the Go
sources modelled here. -/
def isDigitChar (c : Char) : Bool := 48 ≤ c.toNat ∧ c.toNat ≤ 57

/-- The character for decimal digit `d` (`byte(d) + '0'` in Go). -/
def digitChar (d : Nat) : Char := Char.ofNat (48 + d)

/-- Numeric value of a digit character (`c - '0'` in Go). -/
def digitVal (c : Char) : Nat := c.toNat - 48

/-- `2^63 - 1`, Go's `math.MaxInt64`: the largest int64.  The int64
overflow checks of the modelled sources are phrased against it. -/
def maxI : Nat := 9223372036854775807

/-! ## time.Duration text rendering (time.Duration.String)

`fmtInt` and `fmtFrac` write into the tail of a buffer in the Go source;
here the buffer tail is an accumulator list that digits are prepended
to.  `fmtIntCore` carries fuel bounding the number of digits; every
value rendered by the duration code is below 2^64 < 10^24, so fuel 24 is
exact. -/

/-- Digit loop of Go's `fmtInt` (`for v > 0 { buf[w] = v%10 + '0'; v /= 10 }`). -/
def fmtIntCore : Nat → Nat → List Char → List Char
  | 0, _, acc => acc
  | fuel + 1, v, acc =>
    if v = 0 then acc else fmtIntCore fuel (v / 10) (digitChar (v % 10) :: acc)

/-- Model of `fmtInt`: formats `v` in decimal in front of `acc`. -/
def fmtInt (v : Nat) (acc : List Char) : List Char :=
  if v = 0 then '0' :: acc else fmtIntCore 24 v acc

/-- Loop of Go's `fmtFrac`: processes `prec` low decimal digits of `v`
least-significant first, keeping the `print` flag that suppresses
trailing zeros.  Returns the formatted characters (in front of the
accumulator), `v / 10^prec`, and the final `print` flag. -/
def fmtFracCore : Nat → Nat → Bool → List Char → List Char × Nat × Bool
  | v, 0, print, acc => (acc, v, print)
  | v, prec + 1, print, acc =>
    let digit := v % 10
    let print2 := print || decide (digit ≠ 0)
    let acc2 := if print2 then digitChar digit :: acc else acc
    fmtFracCore (v / 10) prec print2 acc2

/-- Model of `fmtFrac`: the fraction `v/10^prec` (e.g. `.12345`), with
trailing zeros — and the decimal point, when the whole fraction is 0 —
omitted.  Returns the characters and `v / 10^prec`. -/
def fmtFrac (v : Nat) (prec : Nat) (acc : List Char) : List Char × Nat :=
  let r := fmtFracCore v prec false acc
  (if r.2.2 then '.' :: r.1 else r.1, r.2.1)

/-- Model of Go's `time.Duration.String` for a duration of `d`
nanoseconds (`d` ranges over int64). -/
def durationString (d : Int) : GoStr :=
  let u := d.natAbs
  let neg := d < 0
  if u < 1000000000 then
    -- Special case: if duration is smaller than a second, use smaller
    -- units, like 1.2ms
    if u = 0 then gstr "0s"
    else
      let core :=
        if u < 1000 then
          -- print nanoseconds
          fmtInt u ('n' :: 's' :: [])
        else if u < 1000000 then
          -- print microseconds
          let r := fmtFrac u 3 ('µ' :: 's' :: [])
          fmtInt r.2 r.1
        else
          -- print milliseconds
          let r := fmtFrac u 6 ('m' :: 's' :: [])
          fmtInt r.2 r.1
      if neg then '-' :: core else core
  else
    let r := fmtFrac u 9 ('s' :: [])
    -- r.2 is now integer seconds
    let secPart := fmtInt (r.2 % 60) r.1
    let mins := r.2 / 60
    let core :=
      -- mins is now integer minutes
      if mins = 0 then secPart
      else
        let minPart := fmtInt (mins % 60) ('m' :: secPart)
        let hrs := mins / 60
        -- stop at hours because days can be different lengths
        if hrs = 0 then minPart else fmtInt hrs ('h' :: minPart)
    if neg then '-' :: core else core

/-! ## time.ParseDuration -/

/-- `time: invalid duration <orig>` (unquoted, as in the pre-1.15
standard library pinned by gofig_test.go). -/
def errInvalidDur (orig : GoStr) : GoStr := gstr "time: invalid duration " ++ orig

/-- `time: missing unit in duration <orig>`. -/
def errMissingUnit (orig : GoStr) : GoStr :=
  gstr "time: missing unit in duration " ++ orig

/-- `time: unknown unit <u> in duration <orig>`. -/
def errUnknownUnit (u orig : GoStr) : GoStr :=
  gstr "time: unknown unit " ++ u ++ gstr " in duration " ++ orig

/-- Go's `leadingInt`: consume leading decimal digits into an int64
accumulator; `none` models `errLeadingInt` (int64 overflow while
accumulating, i.e. `x > (1<<63-1)/10` before the step or a negative
result after it). -/
def leadingInt : Nat → List Char → Option (Nat × List Char)
  | x, [] => some (x, [])
  | x, c :: rest =>
    if isDigitChar c then
      if x > maxI / 10 then none
      else
        let x2 := x * 10 + digitVal c
        if x2 > maxI then none else leadingInt x2 rest
    else some (x, c :: rest)

/-- Loop of Go's `leadingFraction`, carrying the accumulator, the count
of accepted digits (the float64 `scale` of the source is exactly
`10^k` for `k` accepted digits, since at most 19 digits are ever
accepted) and the `overflow` flag. -/
def leadingFractionCore : List Char → Nat → Nat → Bool → Nat × Nat × List Char
  | [], x, k, _ => (x, k, [])
  | c :: rest, x, k, overflow =>
    if isDigitChar c then
      if overflow then leadingFractionCore rest x k overflow
      else if x > maxI / 10 then leadingFractionCore rest x k true
      else
        let y := x * 10 + digitVal c
        if y > maxI then leadingFractionCore rest x k true
        else leadingFractionCore rest y (k + 1) overflow
    else (x, k, c :: rest)

/-- Model of `leadingFraction`: returns `(f, k, rem)` where the source's
`scale` is `10^k`. -/
def leadingFraction (s : List Char) : Nat × Nat × List Char :=
  leadingFractionCore s 0 0 false

/-- Go's `unitMap`: nanoseconds per unit name. -/
def unitMap (u : GoStr) : Option Nat :=
  if u = gstr "ns" then some 1
  else if u = gstr "us" then some 1000
  else if u = gstr "µs" then some 1000      -- U+00B5 micro symbol
  else if u = gstr "μs" then some 1000      -- U+03BC Greek letter mu
  else if u = gstr "ms" then some 1000000
  else if u = gstr "s" then some 1000000000
  else if u = gstr "m" then some 60000000000
  else if u = gstr "h" then some 3600000000000
  else none

/-- Unit-name scan of `ParseDuration`: take characters until a digit or
a decimal point. -/
def spanUnit (s : List Char) : GoStr × List Char :=
  (s.takeWhile fun c => ¬(c = '.' ∨ isDigitChar c),
   s.dropWhile fun c => ¬(c = '.' ∨ isDigitChar c))

/-- One iteration of the `for s != ""` loop of `ParseDuration`: parse
one `[0-9]*(\.[0-9]*)?unit` component of `s`, yielding its value `v` in
nanoseconds and the remaining input, or the error the source returns.

The only floating-point computation of the source,
`v += int64(float64(f) * (float64(unit) / scale))` with `scale = 10^k`,
is modelled by the exact `f * unit / 10^k`; the two agree whenever
`10^k` divides `unit`, which holds for every input produced by
`durationString` (fraction digits never exceed the decimal exponent of
the unit they follow), the only inputs about which fractional values are
proved below. -/
def durIter (s : List Char) (orig : GoStr) : Except GoStr (Nat × List Char) :=
  match s with
  | [] => .error (errInvalidDur orig)    -- not reachable: the loop guard has s nonempty
  | c :: _ =>
    -- the next character must be [0-9.]
    if ¬(c = '.' ∨ isDigitChar c) then .error (errInvalidDur orig)
    else
      match leadingInt 0 s with
      | none => .error (errInvalidDur orig)
      | some (v, s1) =>
        let pre := decide (s1.length ≠ s.length)  -- whether we consumed anything before a period
        let fps :=
          match s1 with
          | '.' :: s2 =>
            let r := leadingFraction s2
            (r.1, r.2.1, r.2.2, decide (r.2.2.length ≠ s2.length))
          | _ => (0, 0, s1, false)
        let f := fps.1
        let k := fps.2.1
        let s3 := fps.2.2.1
        let post := fps.2.2.2
        if ¬pre ∧ ¬post then .error (errInvalidDur orig)  -- no digits (e.g. ".s" or "-.s")
        else
          let us := spanUnit s3
          if us.1 = [] then .error (errMissingUnit orig)
          else
            match unitMap us.1 with
            | none => .error (errUnknownUnit us.1 orig)
            | some unit =>
              if v > maxI / unit then .error (errInvalidDur orig)  -- overflow
              else
                let v2 := v * unit
                let v3 := if f > 0 then v2 + f * unit / 10 ^ k else v2
                if f > 0 ∧ v3 > maxI then .error (errInvalidDur orig)  -- overflow
                else .ok (v3, us.2)

/-- The `for s != ""` loop of `ParseDuration`, accumulating `d`.  Each
iteration consumes at least one character, so fuel `s.length + 1` (what
`parseDuration` passes) always suffices; the fuel-exhaustion branch is
unreachable. -/
def parseDurationLoop : Nat → Nat → List Char → GoStr → Nat × Option GoStr
  | 0, _, _, orig => (0, some (errInvalidDur orig))
  | fuel + 1, d, s, orig =>
    match s with
    | [] => (d, none)
    | _ =>
      match durIter s orig with
      | .error e => (0, some e)
      | .ok (v, s4) =>
        let d2 := d + v
        if d2 > maxI then (0, some (errInvalidDur orig))  -- overflow
        else parseDurationLoop fuel d2 s4 orig

/-- The `[-+]?` sign consumption of `ParseDuration`. -/
def stripSign : GoStr → Bool × List Char
  | c :: rest => if c = '-' ∨ c = '+' then (c = '-', rest) else (false, c :: rest)
  | [] => (false, [])

/-- Model of the pre-1.15 `time.ParseDuration`.  Returns the Go pair
`(Duration, error)`: every error path of the source returns duration 0
alongside the error. -/
def parseDuration (s : GoStr) : Int × Option GoStr :=
  let orig := s
  -- consume [-+]?
  let neg := (stripSign s).1
  let s1 := (stripSign s).2
  -- special case: if all that is left is "0", this is zero
  if s1 = gstr "0" then (0, none)
  else if s1 = [] then (0, some (errInvalidDur orig))
  else
    match parseDurationLoop (s1.length + 1) 0 s1 orig with
    | (_, some e) => (0, some e)
    | (d, none) => (if neg then -(d : Int) else (d : Int), none)

/-! ## The gofig Duration wrapper (gofig.go lines 24-54) -/

/-- `(*Duration).UnmarshalText`: the receiver is overwritten with the
parse result before the error is inspected (so a failed parse zeroes
the receiver).  Returns (new receiver value, error). -/
def durationUnmarshalText (_old : Int) (text : GoStr) : Int × Option GoStr :=
  let r := parseDuration text
  (r.1, r.2)

/-- `(*Duration).String`: a nil receiver renders as the empty string. -/
def durationStringPtr : Option Int → GoStr
  | some d => durationString d
  | none => []

/-- `(*Duration).Set`: on a parse error the receiver is left unchanged. -/
def durationSet (old : Int) (s : GoStr) : Int × Option GoStr :=
  let r := parseDuration s
  match r.2 with
  | some e => (old, some e)
  | none => (r.1, none)

/-! ## strconv models

Only the success/failure verdict and the successful value of
`strconv.ParseInt` / `ParseUint` ever matter to gofig (the library
replaces their error text with its own template), so they are modelled
into `Option`.  `strconv.ParseBool`'s error *is* surfaced verbatim by the
environment pass, so it is modelled with its message. -/

/-- Model of `strconv.Quote` for values without characters that need
escaping (the only values appearing in concrete statements below). -/
def goQuote (s : GoStr) : GoStr := '"' :: (s ++ ['"'])

/-- Model of `strconv.ParseBool`. -/
def parseBoolGo (s : GoStr) : Except GoStr Bool :=
  if s = gstr "1" ∨ s = gstr "t" ∨ s = gstr "T" ∨ s = gstr "true" ∨
     s = gstr "TRUE" ∨ s = gstr "True" then .ok true
  else if s = gstr "0" ∨ s = gstr "f" ∨ s = gstr "F" ∨ s = gstr "false" ∨
     s = gstr "FALSE" ∨ s = gstr "False" then .ok false
  else .error (gstr "strconv.ParseBool: parsing " ++ goQuote s ++ gstr ": invalid syntax")

/-- `2^64 - 1`, Go's maximum uint64. -/
def maxU : Nat := 18446744073709551615

/-- The digit loop of `strconv.ParseUint`: accumulate digits of the
given base, with the source's cutoff and max-value checks (syntax and
range failures both collapse to `none`). -/
def parseUintDigitsGo (base : Nat) (maxVal : Nat) : List Char → Nat → Option Nat
  | [], n => some n
  | c :: rest, n =>
    let d? : Option Nat :=
      if 48 ≤ c.toNat ∧ c.toNat ≤ 57 then some (c.toNat - 48)
      else if 97 ≤ c.toNat ∧ c.toNat ≤ 122 then some (c.toNat - 97 + 10)
      else if 65 ≤ c.toNat ∧ c.toNat ≤ 90 then some (c.toNat - 65 + 10)
      else none
    match d? with
    | none => none
    | some d =>
      if d ≥ base then none
      else if n ≥ maxVal / base + 1 then none    -- n*base overflows
      else
        let n1 := n * base + d
        if n1 > maxVal then none                 -- n+v overflows
        else parseUintDigitsGo base maxVal rest n1

/-- Model of `strconv.ParseUint(s, base, 64)` (pre-1.13: base 0
recognizes the `0x`/`0X` hex prefix and a leading `0` octal prefix). -/
def parseUintGo (base : Nat) (s : GoStr) : Option Nat :=
  if s = [] then none
  else
    let p : Option (Nat × List Char) :=
      if 2 ≤ base ∧ base ≤ 36 then some (base, s)
      else if base = 0 then
        match s with
        | '0' :: 'x' :: rest => if rest = [] then none else some (16, rest)
        | '0' :: 'X' :: rest => if rest = [] then none else some (16, rest)
        | '0' :: rest => some (8, rest)
        | _ => some (10, s)
      else none
    match p with
    | none => none
    | some br => parseUintDigitsGo br.1 maxU br.2 0

/-- Model of `strconv.ParseInt(s, base, 64)`. -/
def parseIntGo (base : Nat) (s : GoStr) : Option Int :=
  if s = [] then none
  else
    let ns : Bool × List Char :=
      match s with
      | '+' :: rest => (false, rest)
      | '-' :: rest => (true, rest)
      | _ => (false, s)
    match parseUintGo base ns.2 with
    | none => none
    | some un =>
      if ¬ns.1 ∧ un ≥ 2 ^ 63 then none         -- un >= cutoff
      else if ns.1 ∧ un > 2 ^ 63 then none     -- un > cutoff
      else if ns.1 then some (-(un : Int)) else some (un : Int)

/-- The value `strconv.ParseFloat` produces, with the IEEE-754 rounding
abstracted: a finite result is kept as its exact decimal value
`m × 10^e`, and the special forms keep their identity.  No theorem
below inspects a stored float value — only parse success/failure and
the error text reach the claims. -/
inductive GoFloat where
  | finite (m : Int) (e : Int)
  | inf (neg : Bool)
  | nan
deriving DecidableEq

/-- `strconv.ParseFloat`'s `special`: optionally signed `inf` and
`infinity` and unsigned `nan`, case-insensitively (the source switches
on the first byte, so a signed `nan` is not special). -/
def floatSpecial (s : GoStr) : Option GoFloat :=
  let low := toLowerStr s
  if low = gstr "inf" ∨ low = gstr "+inf" ∨ low = gstr "infinity" ∨
      low = gstr "+infinity" then some (.inf false)
  else if low = gstr "-inf" ∨ low = gstr "-infinity" then some (.inf true)
  else if low = gstr "nan" then some .nan
  else none

/-- The mantissa loop of `strconv`'s `readFloat`: consume digits with
at most one decimal point, returning the digits' value, the count of
digits after the point, whether any digit was seen, and the rest (a
second point stops the scan). -/
def floatMantissa : List Char → Nat → Nat → Bool → Bool → Nat × Nat × Bool × List Char
  | [], m, k, sawdig, _ => (m, k, sawdig, [])
  | c :: rest, m, k, sawdig, sawdot =>
    if isDigitChar c then
      floatMantissa rest (m * 10 + digitVal c) (if sawdot then k + 1 else k) true sawdot
    else if c = '.' ∧ ¬sawdot then floatMantissa rest m k sawdig true
    else (m, k, sawdig, c :: rest)

/-- The exponent digit loop of `readFloat`. -/
def floatExpLoop : List Char → Nat → Nat × List Char
  | [], e => (e, [])
  | c :: rest, e =>
    if isDigitChar c then floatExpLoop rest (e * 10 + digitVal c)
    else (e, c :: rest)

/-- The exponent part of `readFloat`: nothing, or `[eE][+-]?digits`
reaching the end of the string. -/
def floatExponent : List Char → Option Int
  | [] => some 0
  | c :: rest =>
    if c = 'e' ∨ c = 'E' then
      let ds : Bool × List Char :=
        match rest with
        | '+' :: r2 => (false, r2)
        | '-' :: r2 => (true, r2)
        | r2 => (false, r2)
      match ds.2 with
      | [] => none
      | d :: _ =>
        if ¬isDigitChar d then none
        else
          let r := floatExpLoop ds.2 0
          if r.2 = [] then some (if ds.1 then -(r.1 : Int) else (r.1 : Int))
          else none
    else none

/-- Model of `strconv.ParseFloat(s, 64)`: the decimal grammar
`[+-]?(digits[.digits*]?|.digits)([eE][+-]?digits)?` of `readFloat`
plus the `special` forms (`stripSign` is the same `[+-]?` consumption
the duration parser uses).  Three aspects of the source are
abstracted, none of which reaches a theorem: the hex-float and
digit-separator input extensions of Go ≥ 1.13 (no theorem evaluates
the parser on such inputs), the IEEE-754 rounding of the decimal (the
exact decimal is kept, and no theorem inspects a stored float), and
the `ErrRange` overflow check (no theorem evaluates the parser on an
out-of-range input). -/
def parseFloatGo (s : GoStr) : Option GoFloat :=
  match floatSpecial s with
  | some x => some x
  | none =>
    let neg := (stripSign s).1
    let r := floatMantissa (stripSign s).2 0 0 false false
    if ¬r.2.2.1 then none
    else
      match floatExponent r.2.2.2 with
      | none => none
      | some ex =>
        some (.finite (if neg then -(r.1 : Int) else (r.1 : Int)) (ex - (r.2.1 : Int)))

/-! ## The gofig data model

The destination structure is deep-embedded: a `Fields` value records,
in declaration order, each field's declared name, its struct tags and
either its leaf kind or its nested struct body.  Leaf storage is a
`State`: a map from structural addresses (the path of declared field
names) to values.  The supported leaf kinds are modelled except
float64, whose handling is structurally identical to the integer kinds
and on which no claim depends; nil-able pointer fields (handled by the
`reflect.Ptr` case of the source) are likewise outside every claim. -/

/-- The leaf kinds the source's type switches distinguish
(`gofig.Duration` has reflect kind int64 but is special-cased on its
type). -/
inductive Kind where
  | kstr
  | kbool
  | kint
  | kint64
  | kdur
  | kuint
  | kuint64
  | kfloat64
deriving DecidableEq

/-- `reflect.Kind.String()` for the modelled kinds (used by the
environment pass's error template for the integer kinds). -/
def kindName : Kind → GoStr
  | .kstr => gstr "string"
  | .kbool => gstr "bool"
  | .kint => gstr "int"
  | .kint64 => gstr "int64"
  | .kdur => gstr "int64"
  | .kuint => gstr "uint"
  | .kuint64 => gstr "uint64"
  | .kfloat64 => gstr "float64"

/-- Leaf values. Durations are stored as their int64 nanosecond count
(the source calls `f.SetInt(d.Nanoseconds())`). -/
inductive GoVal where
  | vstr (s : GoStr)
  | vbool (b : Bool)
  | vint (n : Int)
  | vuint (n : Nat)
  | vfloat (x : GoFloat)
deriving DecidableEq

/-- The two tag keys `parseStruct` reads (model of `reflect.StructTag`
restricted to them; the `desc` tag only feeds flag help text). -/
structure GoTags where
  flagTag : GoStr
  envTag : GoStr
deriving DecidableEq

/-- The `cfgTag` argument of `parseStruct`: which tag key the pass
renames/skips by. -/
inductive CfgTag where
  | flag
  | env
deriving DecidableEq

/-- `tags.Get(cfgTag)`. -/
def GoTags.get (t : GoTags) : CfgTag → GoStr
  | .flag => t.flagTag
  | .env => t.envTag

/-- A destination structure: its fields in declaration order, each a
leaf of some kind or a nested struct. -/
inductive Fields where
  | fnil : Fields
  | fleaf (name : GoStr) (tags : GoTags) (k : Kind) (rest : Fields) : Fields
  | fsub (name : GoStr) (tags : GoTags) (body : Fields) (rest : Fields) : Fields
deriving DecidableEq

/-- Structural address of a field: the path of declared field names. -/
abbrev Addr := List GoStr

/-- The mutable leaf storage of the destination structure. -/
def State := Addr → GoVal

/-- Write one leaf in place. -/
def updState (σ : State) (a : Addr) (v : GoVal) : State :=
  fun x => if x = a then v else σ x

/-- `strings.Split(tag, ",")[0]`. -/
def splitHeadComma (s : GoStr) : GoStr := s.takeWhile fun c => c ≠ ','

/-- The per-field callback type of `parseStruct` (the source's
`fieldParser`): receives the derived key path, the field's storage
address (the handle `&f`), its kind and tags. -/
def Parser (St : Type) :=
  List GoStr → Addr → Kind → GoTags → St → St × Option GoStr

/-- The field loop of `parseStruct`: rename/skip via the pass's tag,
recurse into nested structs with the accumulated path, call the parser
on leaves, and abort on the first error. -/
def walkFields {St : Type} (parser : Parser St) (cfgTag : CfgTag) :
    List GoStr → Addr → Fields → St → St × Option GoStr
  | _, _, .fnil, st => (st, none)
  | parents, addr, .fleaf name tags k rest, st =>
    -- support field key renaming/skipping
    let key := splitHeadComma (tags.get cfgTag)
    if key = gstr "-" then walkFields parser cfgTag parents addr rest st
    else
      let key2 := if key = [] then name else key
      let path := parents ++ [toLowerStr key2]
      match parser path (addr ++ [name]) k tags st with
      | (st2, some e) => (st2, some e)
      | (st2, none) => walkFields parser cfgTag parents addr rest st2
  | parents, addr, .fsub name tags body rest, st =>
    let key := splitHeadComma (tags.get cfgTag)
    if key = gstr "-" then walkFields parser cfgTag parents addr rest st
    else
      let key2 := if key = [] then name else key
      let path := parents ++ [toLowerStr key2]
      -- a struct field: call ourselves recursively, then continue
      match walkFields parser cfgTag path (addr ++ [name]) body st with
      | (st2, some e) => (st2, some e)
      | (st2, none) => walkFields parser cfgTag parents addr rest st2

/-- `parseStruct` on the root structure.  (The source's nil-pointer /
non-struct-root `errInvalidValue` checks cannot fire here because the
root is a struct by construction.) -/
def parseStructGo {St : Type} (parser : Parser St) (cfgTag : CfgTag)
    (root : Fields) (st : St) : St × Option GoStr :=
  walkFields parser cfgTag [] [] root st

/-- The flattened view of one pass's walk: the leaves it visits, with
their derived key paths and addresses (specification device used by the
theorems; the executable embedding is `walkFields`). -/
structure LeafInfo where
  path : List GoStr
  addr : Addr
  kind : Kind
  tags : GoTags
deriving DecidableEq

/-- The leaves `walkFields` visits for a given pass, in visit order. -/
def leavesOf (cfgTag : CfgTag) : List GoStr → Addr → Fields → List LeafInfo
  | _, _, .fnil => []
  | parents, addr, .fleaf name tags k rest =>
    let key := splitHeadComma (tags.get cfgTag)
    if key = gstr "-" then leavesOf cfgTag parents addr rest
    else
      let key2 := if key = [] then name else key
      ⟨parents ++ [toLowerStr key2], addr ++ [name], k, tags⟩ ::
        leavesOf cfgTag parents addr rest
  | parents, addr, .fsub name tags body rest =>
    let key := splitHeadComma (tags.get cfgTag)
    if key = gstr "-" then leavesOf cfgTag parents addr rest
    else
      let key2 := if key = [] then name else key
      leavesOf cfgTag (parents ++ [toLowerStr key2]) (addr ++ [name]) body ++
        leavesOf cfgTag parents addr rest

/-! ## The environment pass -/

/-- `Gofig.getEnvKey`: prepend the prefix when one is set, join with
underscores, upper-case. -/
def getEnvKey (pfx : GoStr) (path : List GoStr) : GoStr :=
  toUpperStr (joinStr (gstr "_") (if pfx ≠ [] then pfx :: path else path))

/-- The templated message of `Gofig.envDecoder`:
`error parsing environment variable '<key>' with value '<val>' into <t>`. -/
def envErrTemplate (key val tname : GoStr) : GoStr :=
  gstr "error parsing environment variable '" ++ key ++
    gstr "' with value '" ++ val ++ gstr "' into " ++ tname

/-- The process environment (`os.LookupEnv`): absent vs present-empty
distinguished. -/
def Env := GoStr → Option GoStr

/-- `Gofig.envDecoder`, the per-field callback of the environment pass.
The `f.OverflowInt` / `f.OverflowUint` disjuncts of the source are
always false for the 64-bit kinds modelled here.  The final `%v` slot
of the template renders `f.Kind()` for the numeric kinds but `f.Type()`
— the package-qualified type name `gofig.Duration` — for durations. -/
def envDecoder (pfx : GoStr) (env : Env) : Parser State :=
  fun path addr k _tags σ =>
    let key := getEnvKey pfx path
    match env key with
    | none => (σ, none)
    | some val =>
      match k with
      | .kstr => (updState σ addr (.vstr val), none)
      | .kbool =>
        match parseBoolGo val with
        | .error e => (σ, some e)
        | .ok b => (updState σ addr (.vbool b), none)
      | .kdur =>
        -- case reflect.Int, reflect.Int64 with f.Type() == Duration
        let r := parseDuration val
        match r.2 with
        | some _ => (σ, some (envErrTemplate key val (gstr "gofig.Duration")))
        | none => (updState σ addr (.vint r.1), none)
      | .kint =>
        match parseIntGo 10 val with
        | none => (σ, some (envErrTemplate key val (kindName .kint)))
        | some n => (updState σ addr (.vint n), none)
      | .kint64 =>
        match parseIntGo 10 val with
        | none => (σ, some (envErrTemplate key val (kindName .kint64)))
        | some n => (updState σ addr (.vint n), none)
      | .kuint =>
        match parseUintGo 10 val with
        | none => (σ, some (envErrTemplate key val (kindName .kuint)))
        | some n => (updState σ addr (.vuint n), none)
      | .kuint64 =>
        match parseUintGo 10 val with
        | none => (σ, some (envErrTemplate key val (kindName .kuint64)))
        | some n => (updState σ addr (.vuint n), none)
      | .kfloat64 =>
        -- case reflect.Float64: `err != nil || f.OverflowFloat(n)`; for
        -- a float64 field OverflowFloat is identically false
        match parseFloatGo val with
        | none => (σ, some (envErrTemplate key val (kindName .kfloat64)))
        | some x => (updState σ addr (.vfloat x), none)

/-! ## The flag set: registration and parsing

Models the queried surface of Go's `flag` package (an external
collaborator of the core): named, typed options bound to field storage,
registered by `Gofig.flagBuilder` and mutated by `FlagSet.Parse`. -/

/-- One registered flag.  `target = none` models a flag whose backing
storage lies outside the destination struct (the config-file flag that
`SetConfigFileFlag` registers with `flagSet.String`). -/
structure FlagReg where
  name : GoStr
  target : Option (Addr × Kind)
deriving DecidableEq

/-- Registration (`FlagSet.Var`): registering a name twice panics in Go
("flag redefined"); the panic is modelled as an error and is unreachable
under the distinct-key hypotheses of the theorems below. -/
def registerFlag (regs : List FlagReg) (r : FlagReg) : List FlagReg × Option GoStr :=
  if regs.any fun q => decide (q.name = r.name) then (regs, some (gstr "flag redefined"))
  else (regs ++ [r], none)

/-- `Gofig.flagBuilder`, the per-field callback of the registration
pass: registers one flag per leaf, keyed by the hyphen-joined path,
bound to the field's storage, with the field's current content as
default (each `*Var` call writes that default — the current value —
back into the field, a no-op write retained literally here; the
`flagSet.Var` call used for Durations performs no such write, which is
indistinguishable). -/
def flagBuilder : Parser (State × List FlagReg) :=
  fun path addr k _tags st =>
    let key := joinStr (gstr "-") path
    let r := registerFlag st.2 ⟨key, some (addr, k)⟩
    match r.2 with
    | some e => (st, some e)
    | none => ((updState st.1 addr (st.1 addr), r.1), none)

/-- Whether the registered value satisfies the flag package's
`boolFlag` test (only `bool` fields do; the `*Duration` flag value does
not implement `IsBoolFlag`). -/
def isBoolFlag (r : FlagReg) : Bool :=
  match r.target with
  | some (_, .kbool) => true
  | _ => false

/-- `flag.Value.Set` for each registered value kind, writing the parsed
value through to the bound storage.  On a parse failure the source's
typed values write the zero/saturated value of the failed conversion
before returning the error; no claim inspects the state of a failed
flag parse, so the failed write is not tracked. -/
def flagValueSet (σ : State) (r : FlagReg) (value : GoStr) : Except GoStr State :=
  match r.target with
  | none => .ok σ    -- the config-file flag's string storage is external
  | some (addr, k) =>
    match k with
    | .kstr => .ok (updState σ addr (.vstr value))
    | .kbool =>
      match parseBoolGo value with
      | .error e => .error e
      | .ok b => .ok (updState σ addr (.vbool b))
    | .kdur =>
      -- our (*Duration).Set, i.e. time.ParseDuration
      let p := parseDuration value
      match p.2 with
      | some e => .error e
      | none => .ok (updState σ addr (.vint p.1))
    | .kint =>
      match parseIntGo 0 value with
      | none => .error (gstr "parse error")
      | some n => .ok (updState σ addr (.vint n))
    | .kint64 =>
      match parseIntGo 0 value with
      | none => .error (gstr "parse error")
      | some n => .ok (updState σ addr (.vint n))
    | .kuint =>
      match parseUintGo 0 value with
      | none => .error (gstr "parse error")
      | some n => .ok (updState σ addr (.vuint n))
    | .kuint64 =>
      match parseUintGo 0 value with
      | none => .error (gstr "parse error")
      | some n => .ok (updState σ addr (.vuint n))
    | .kfloat64 =>
      match parseFloatGo value with
      | none => .error (gstr "parse error")
      | some x => .ok (updState σ addr (.vfloat x))

/-- `flag` package error messages (shapes only; no claim depends on
their text). -/
def errBadSyntax (s : GoStr) : GoStr := gstr "bad flag syntax: " ++ s

def errNotDefined (name : GoStr) : GoStr :=
  gstr "flag provided but not defined: -" ++ name

def errNeedsArg (name : GoStr) : GoStr :=
  gstr "flag needs an argument: -" ++ name

def errInvalidFlagValue (value name e : GoStr) : GoStr :=
  gstr "invalid value " ++ goQuote value ++ gstr " for flag -" ++ name ++ gstr ": " ++ e

def errInvalidBoolValue (value name e : GoStr) : GoStr :=
  gstr "invalid boolean value " ++ goQuote value ++ gstr " for -" ++ name ++ gstr ": " ++ e

def errHelpRequested : GoStr := gstr "flag: help requested"

/-- `f.formal[name]` lookup (registration rejects duplicates, so the
first match is the map entry). -/
def lookupFlag (regs : List FlagReg) (name : GoStr) : Option FlagReg :=
  regs.find? fun r => decide (r.name = name)

/-- Split `name` at its first `=` (the `name[i] == '='` scan of
`parseOne`): returns (name, value, hasValue). -/
def splitFirstEq : GoStr → GoStr × GoStr × Bool
  | [] => ([], [], false)
  | '=' :: rest => ([], rest, true)
  | c :: rest =>
    let r := splitFirstEq rest
    (c :: r.1, r.2.1, r.2.2)

/-- One step of `FlagSet.parseOne`: `.ok none` means parsing stops (no
more flags, a bare `-`, or the `--` terminator); `.ok (some (σ, rest))`
means one flag was consumed. -/
def parseOne (regs : List FlagReg) (σ : State) (args : List GoStr) :
    Except GoStr (Option (State × List GoStr)) :=
  match args with
  | [] => .ok none
  | s :: rest =>
    match s with
    | '-' :: s1 =>
      if s1 = [] then .ok none    -- len(s) < 2
      else
        let nm : GoStr × Bool :=
          match s1 with
          | '-' :: s2 => (s2, true)
          | _ => (s1, false)
        if nm.2 ∧ nm.1 = [] then .ok none    -- "--" terminates the flags
        else if nm.1 = [] ∨ nm.1.head? = some '-' ∨ nm.1.head? = some '=' then
          .error (errBadSyntax s)
        else
          let sp := splitFirstEq nm.1
          let name := sp.1
          match lookupFlag regs name with
          | none =>
            if name = gstr "help" ∨ name = gstr "h" then .error errHelpRequested
            else .error (errNotDefined name)
          | some r =>
            if isBoolFlag r then
              match flagValueSet σ r (if sp.2.2 then sp.2.1 else gstr "true") with
              | .error e => .error (errInvalidBoolValue sp.2.1 name e)
              | .ok σ2 => .ok (some (σ2, rest))
            else
              -- value is the next arg when not attached with '='
              match sp.2.2, rest with
              | true, _ =>
                match flagValueSet σ r sp.2.1 with
                | .error e => .error (errInvalidFlagValue sp.2.1 name e)
                | .ok σ2 => .ok (some (σ2, rest))
              | false, v :: rest2 =>
                match flagValueSet σ r v with
                | .error e => .error (errInvalidFlagValue v name e)
                | .ok σ2 => .ok (some (σ2, rest2))
              | false, [] => .error (errNeedsArg name)
    | _ => .ok none    -- does not start with '-'

/-- The `for { parseOne }` loop of `FlagSet.Parse`.  Every accepted flag
consumes at least one token, so fuel `args.length + 1` always suffices. -/
def flagParseLoop : Nat → List FlagReg → State → List GoStr → State × Option GoStr
  | 0, _, σ, _ => (σ, some (gstr "bad flag syntax: "))   -- unreachable
  | fuel + 1, regs, σ, args =>
    match parseOne regs σ args with
    | .error e => (σ, some e)
    | .ok none => (σ, none)
    | .ok (some (σ2, args2)) => flagParseLoop fuel regs σ2 args2

/-- `FlagSet.Parse` (with `flag.ContinueOnError`, as `New` configures). -/
def flagParse (regs : List FlagReg) (σ : State) (args : List GoStr) :
    State × Option GoStr :=
  flagParseLoop (args.length + 1) regs σ args

/-! ## The config-file phase -/

/-- The loop of `Gofig.parseConfigFlag`.  The source guards the access
`args[i+1]` with `len(os.Args) > i+1` — the length of the *process*
argument vector, not of the `args` parameter — so the result depends on
`osArgsLen` and the access can be out of range; `none` models the
resulting index-out-of-range panic. -/
def parseConfigFlagLoop (name : GoStr) (osArgsLen : Nat) :
    Nat → List GoStr → Option GoStr
  | _, [] => some []                  -- return ""
  | i, a :: rest =>
    if a = name ∧ osArgsLen > i + 1 then
      match rest with
      | v :: _ => some v              -- return args[i+1]
      | [] => none                    -- args[i+1] is out of range: panic
    else
      let as := splitFirstEq a        -- strings.SplitN(a, "=", 2)
      if as.1 = name ∧ as.2.2 then some as.2.1
      else parseConfigFlagLoop name osArgsLen (i + 1) rest

/-- `Gofig.parseConfigFlag`: scan the raw argument token list for the
value of the designated config-file flag. -/
def parseConfigFlag (cfgFlagName : GoStr) (osArgsLen : Nat) (args : List GoStr) :
    Option GoStr :=
  parseConfigFlagLoop (gstr "-" ++ cfgFlagName) osArgsLen 0 args

/-- The verdict of the external structured-document decoder for one
open file: which leaf locations (structural addresses) the document
supplies, or a decode failure.  The per-format key tags by which the
JSON/TOML/YAML decoders resolve document keys to fields are internal to
those external collaborators and are abstracted into this map. -/
def Doc := Addr → Option GoVal

/-- What `os.Open` finds at a path. -/
inductive OpenRes where
  | file (decodeRes : Except GoStr Doc)
  | notExist
  | openErr (msg : GoStr)

/-- The file system. -/
def FS := GoStr → OpenRes

/-- File-handle and decoder events of the config-file phase, recorded
so that resource-lifetime claims can be stated.  The phase has no code
path that emits `closed`: the source never calls `f.Close()`. -/
inductive FileEv where
  | opened (path : GoStr)
  | closed (path : GoStr)
  | decoded (path : GoStr)
deriving DecidableEq

/-- Decoding a whole document into the structure: document-supplied
locations overwrite, the rest keep their values. -/
def applyDoc (doc : Doc) (σ : State) : State :=
  fun a => (doc a).getD (σ a)

/-- Model of `filepath.Ext`: the suffix beginning at the final dot of
the final path element, empty when there is none. -/
def filepathExt (p : GoStr) : GoStr :=
  let base := (p.reverse.takeWhile fun c => c ≠ '/').reverse
  if base.contains '.' then
    gstr "." ++ (base.reverse.takeWhile fun c => c ≠ '.').reverse
  else []

/-- `os.Open`'s error for a missing path (Unix `*PathError` text). -/
def errFileNotExist (p : GoStr) : GoStr :=
  gstr "open " ++ p ++ gstr ": no such file or directory"

/-- `Gofig.decodeConfigFile`: dispatch on the opened file's extension
to the matching format decoder; any other extension is
`config file type not supported`.  A decode failure is surfaced
unchanged.  No path closes the handle. -/
def decodeConfigFile (fname : GoStr) (res : Except GoStr Doc) (σ : State) :
    State × Option GoStr × List FileEv :=
  let ext := filepathExt fname
  if ext = gstr ".json" ∨ ext = gstr ".toml" ∨ ext = gstr ".yaml" then
    match res with
    | .error e => (σ, some e, [.decoded fname])
    | .ok doc => (applyDoc doc σ, none, [.decoded fname])
  else (σ, some (gstr "config file type not supported"), [])

/-- `var cfgFileExt = []string{".json", ".toml", ".yaml"}`. -/
def cfgFileExt : List GoStr := [gstr ".json", gstr ".toml", gstr ".yaml"]

/-- Outcome of the search loop over candidate config files. -/
inductive ProbeOut where
  | nothing
  | failed (e : GoStr)
  | found (name : GoStr) (res : Except GoStr Doc)

/-- Inner loop of `Gofig.parseConfigFile`: try each extension for one
base name; a missing file continues, any other open error aborts. -/
def probeExts (fs : FS) (cfgFile : GoStr) : List GoStr → ProbeOut
  | [] => .nothing
  | ext :: rest =>
    match fs (cfgFile ++ ext) with
    | .notExist => probeExts fs cfgFile rest
    | .openErr m => .failed m
    | .file res => .found (cfgFile ++ ext) res

/-- Outer loop of `Gofig.parseConfigFile` over the configured base
names. -/
def probeFiles (fs : FS) : List GoStr → ProbeOut
  | [] => .nothing
  | f :: rest =>
    match probeExts fs f cfgFileExt with
    | .nothing => probeFiles fs rest
    | .failed e => .failed e
    | .found n r => .found n r

/-- Resolution-call failures: an error value returned to the caller, or
a run-time panic (the out-of-range index of `parseConfigFlag`). -/
inductive GoErr where
  | err (msg : GoStr)
  | panicked
deriving DecidableEq

/-- The orchestrator state a resolution call reads: env-variable
prefix, the designated config-file flag (`some name` after
`SetConfigFileFlag(name, …)`, which also registers a string flag of
that name), and the config-file base names added by `AddConfigFile`. -/
structure Gofig where
  envPfx : GoStr
  cfgFlag : Option GoStr
  cfgFiles : List GoStr

/-- `gf.cfgFlagName` (the zero value `""` when never set). -/
def Gofig.cfgFlagNameStr (gf : Gofig) : GoStr := gf.cfgFlag.getD []

/-- The flags already on the flag set when `parse` starts: the
config-file flag, when designated (its string storage is outside the
destination struct). -/
def initRegs (gf : Gofig) : List FlagReg :=
  match gf.cfgFlag with
  | some n => [⟨n, none⟩]
  | none => []

/-- `Gofig.parseConfigFile`: an explicit config-file flag value wins
(and failing to open exactly that path is an error); otherwise probe
the candidate base names; no candidate existing is not an error.
Returns the new state, the outcome and the file events. -/
def parseConfigFile (gf : Gofig) (fs : FS) (osArgsLen : Nat)
    (args : List GoStr) (σ : State) : State × Option GoErr × List FileEv :=
  match parseConfigFlag gf.cfgFlagNameStr osArgsLen args with
  | none => (σ, some .panicked, [])
  | some cfgFlagVal =>
    if cfgFlagVal ≠ [] then
      match fs cfgFlagVal with
      | .file res =>
        let r := decodeConfigFile cfgFlagVal res σ
        (r.1, r.2.1.map .err, .opened cfgFlagVal :: r.2.2)
      | .notExist => (σ, some (.err (errFileNotExist cfgFlagVal)), [])
      | .openErr m => (σ, some (.err m), [])
    else
      match probeFiles fs gf.cfgFiles with
      | .nothing => (σ, none, [])
      | .failed e => (σ, some (.err e), [])
      | .found name res =>
        let r := decodeConfigFile name res σ
        (r.1, r.2.1.map .err, .opened name :: r.2.2)

/-- `Gofig.parse` (the body of one resolution session, what
`ParseWithArgs` wraps in the error-handling policy): the four mutation
passes in their fixed order, each one's error ending the call. -/
def gofigParse (gf : Gofig) (root : Fields) (σ0 : State) (fs : FS)
    (env : Env) (osArgsLen : Nat) (args : List GoStr) : State × Option GoErr :=
  -- build the flag list from the struct
  match parseStructGo flagBuilder .flag root (σ0, initRegs gf) with
  | (st1, some e) => (st1.1, some (.err e))
  | ((σ1, regs), none) =>
    -- parse the optional config file (override user-defined values)
    match parseConfigFile gf fs osArgsLen args σ1 with
    | (σ2, some e, _) => (σ2, some e)
    | (σ2, none, _) =>
      -- decode the env variables (override config file values)
      match parseStructGo (envDecoder gf.envPfx env) .env root σ2 with
      | (σ3, some e) => (σ3, some (.err e))
      | (σ3, none) =>
        -- parse the flags (override the env variables values)
        let r := flagParse regs σ3 args
        (r.1, r.2.map .err)

/-! ## Specification-side devices

Definitions used to *state* the claims: flattened views of the walk,
the candidate-file list, rendered canonical flag arguments, and the
spec's own wording of the environment-key derivation (for the
refinement claim C6). -/

/-- Run a per-field parser over an explicit leaf list (the flattened
counterpart of `walkFields`, related to it by `walkFields_eq_run`). -/
def runParserList {St : Type} (parser : Parser St) : List LeafInfo → St → St × Option GoStr
  | [], st => (st, none)
  | ℓ :: ls, st =>
    match parser ℓ.path ℓ.addr ℓ.kind ℓ.tags st with
    | (st2, some e) => (st2, some e)
    | (st2, none) => runParserList parser ls st2

/-- Sibling field names of a structure, in declaration order. -/
def fieldNames : Fields → List GoStr
  | .fnil => []
  | .fleaf n _ _ r => n :: fieldNames r
  | .fsub n _ _ r => n :: fieldNames r

/-- Well-formedness of a destination structure: sibling field names are
distinct at every level (Go guarantees this for declared struct
fields). -/
def wfFields : Fields → Bool
  | .fnil => true
  | .fleaf n _ _ r => decide (n ∉ fieldNames r) && wfFields r
  | .fsub n _ b r => decide (n ∉ fieldNames r) && wfFields b && wfFields r

/-- The flag key of a visited leaf: its path joined with hyphens. -/
def flagKeyOf (ℓ : LeafInfo) : GoStr := joinStr (gstr "-") ℓ.path

/-- The registration `flagBuilder` produces for a visited leaf. -/
def mkFlagReg (ℓ : LeafInfo) : FlagReg := ⟨flagKeyOf ℓ, some (ℓ.addr, ℓ.kind)⟩

/-- The value the environment pass writes for a leaf of kind `k` when
the variable holds `val` (`none` = the parse the pass performs fails). -/
def envLeafVal (k : Kind) (val : GoStr) : Option GoVal :=
  match k with
  | .kstr => some (.vstr val)
  | .kbool =>
    match parseBoolGo val with
    | .ok b => some (.vbool b)
    | .error _ => none
  | .kdur =>
    let r := parseDuration val
    match r.2 with
    | none => some (.vint r.1)
    | some _ => none
  | .kint => (parseIntGo 10 val).map .vint
  | .kint64 => (parseIntGo 10 val).map .vint
  | .kuint => (parseUintGo 10 val).map .vuint
  | .kuint64 => (parseUintGo 10 val).map .vuint
  | .kfloat64 => (parseFloatGo val).map .vfloat

/-- The value flag parsing writes through a registration of kind `k`
for flag text `val` (`none` = `Value.Set` fails). -/
def flagLeafVal (k : Kind) (val : GoStr) : Option GoVal :=
  match k with
  | .kstr => some (.vstr val)
  | .kbool =>
    match parseBoolGo val with
    | .ok b => some (.vbool b)
    | .error _ => none
  | .kdur =>
    let r := parseDuration val
    match r.2 with
    | none => some (.vint r.1)
    | some _ => none
  | .kint => (parseIntGo 0 val).map .vint
  | .kint64 => (parseIntGo 0 val).map .vint
  | .kuint => (parseUintGo 0 val).map .vuint
  | .kuint64 => (parseUintGo 0 val).map .vuint
  | .kfloat64 => (parseFloatGo val).map .vfloat

/-- Effect of the environment pass on one leaf. -/
def envApplyLeaf (pfx : GoStr) (env : Env) (ℓ : LeafInfo) (σ : State) : State :=
  match env (getEnvKey pfx ℓ.path) with
  | none => σ
  | some val =>
    match envLeafVal ℓ.kind val with
    | some gv => updState σ ℓ.addr gv
    | none => σ

/-- Effect of the environment pass on a leaf list. -/
def envApplyAll (pfx : GoStr) (env : Env) (ls : List LeafInfo) (σ : State) : State :=
  ls.foldl (fun s ℓ => envApplyLeaf pfx env ℓ s) σ

/-- Canonical rendering of explicit flag assignments as argument
tokens, in the single-token `-key=value` form. -/
def renderArgs (asgn : List (GoStr × GoStr)) : List GoStr :=
  asgn.map fun kv => gstr "-" ++ kv.1 ++ gstr "=" ++ kv.2

/-- The last value assigned to flag `k` (flag parsing applies
assignments left to right, so the last one wins). -/
def lastAssoc : List (GoStr × GoStr) → GoStr → Option GoStr
  | [], _ => none
  | kv :: rest, k =>
    match lastAssoc rest k with
    | some v => some v
    | none => if kv.1 = k then some kv.2 else none

/-- Net effect of flag parsing for a canonical assignment list:
left-to-right writes through the registered bindings (failed or
unregistered assignments leave the state alone; the hypotheses of the
theorems below rule them out). -/
def applyAsgn (regs : List FlagReg) (σ : State) (asgn : List (GoStr × GoStr)) : State :=
  asgn.foldl
    (fun s kv =>
      match lookupFlag regs kv.1 with
      | some r =>
        match flagValueSet s r kv.2 with
        | .ok s2 => s2
        | .error _ => s
      | none => s) σ

/-- The state write one successful `Value.Set` performs through a
registration. -/
def flagWrite (r : FlagReg) (v : GoStr) (σ : State) : State :=
  match r.target with
  | none => σ
  | some (a, k) =>
    match flagLeafVal k v with
    | some gv => updState σ a gv
    | none => σ

/-- A flag key in canonical token form: nonempty, no `=`, not starting
with `-`. -/
def wfFlagKey (k : GoStr) : Bool :=
  decide (k ≠ []) && decide (k.head? ≠ some '-') && !(k.contains '=')

/-- The candidate config-file names: each configured base name, in
order, against each supported extension, in order. -/
def fileCandidates (bases : List GoStr) : List GoStr :=
  (bases.map fun b => cfgFileExt.map fun e => b ++ e).flatten

/-- First candidate that is not reported missing, in list order (the
flattened counterpart of the probe loops). -/
def firstHitSpec (fs : FS) : List GoStr → ProbeOut
  | [] => .nothing
  | c :: rest =>
    match fs c with
    | .notExist => firstHitSpec fs rest
    | .openErr m => .failed m
    | .file res => .found c res

/-- `a` lies inside the subtree rooted at address `pre`. -/
def isUnder (pre a : Addr) : Prop := ∃ suf, a = pre ++ suf

/-- Spec wording of a path segment (claim C6): the per-source
rename-tag value or, absent one, the lower-cased declared field name. -/
def specSegment (cfgTag : CfgTag) (name : GoStr) (tags : GoTags) : GoStr :=
  let key := splitHeadComma (tags.get cfgTag)
  if key = [] then toLowerStr name else key

/-- Spec-worded walk for the environment source: the addresses of the
environment-visible leaves with their segment sequences, built from
`specSegment` (rename-tag value not lower-cased), honoring skips. -/
def specEnvLeaves : List GoStr → Addr → Fields → List (Addr × List GoStr)
  | _, _, .fnil => []
  | segs, addr, .fleaf name tags _ rest =>
    if splitHeadComma (tags.get .env) = gstr "-" then specEnvLeaves segs addr rest
    else
      (addr ++ [name], segs ++ [specSegment .env name tags]) ::
        specEnvLeaves segs addr rest
  | segs, addr, .fsub name tags body rest =>
    if splitHeadComma (tags.get .env) = gstr "-" then specEnvLeaves segs addr rest
    else
      specEnvLeaves (segs ++ [specSegment .env name tags]) (addr ++ [name]) body ++
        specEnvLeaves segs addr rest

/-- Spec wording of the environment key (claim C6): the upper-cased,
underscore-joined field path, with the configured prefix prepended —
followed by an underscore — when a non-empty prefix was set. -/
def specEnvKey (pfx : GoStr) (segs : List GoStr) : GoStr :=
  (if pfx ≠ [] then toUpperStr pfx ++ gstr "_" else []) ++
    toUpperStr (joinStr (gstr "_") segs)

/-- Close events, for stating the resource-release claim positively. -/
def isCloseEv : FileEv → Bool
  | .closed _ => true
  | _ => false

/-- The environment pass succeeds at a leaf: its variable is unset or
its value parses for the leaf kind. -/
def envLeafOk (pfx : GoStr) (env : Env) (ℓ : LeafInfo) : Bool :=
  match env (getEnvKey pfx ℓ.path) with
  | none => true
  | some val => (envLeafVal ℓ.kind val).isSome

/-! Specification devices for the duration round-trip: the numeric value
of a digit string, and closed forms for what `fmtInt` / `fmtFrac`
print. -/

/-- Value of a digit string, most significant digit first (the
accumulation order of `leadingInt` / `leadingFraction`). -/
def charsVal (ds : List Char) : Nat :=
  ds.foldl (fun a c => a * 10 + digitVal c) 0

/-- The decimal digits `fmtInt` prints. -/
def decChars (v : Nat) : List Char := fmtInt v []

/-- The zero-padded low `p` decimal digits of `v` (what the `fmtFrac`
loop prints once its `print` flag is set). -/
def padChars : Nat → Nat → List Char
  | 0, _ => []
  | p + 1, v => padChars p (v / 10) ++ [digitChar (v % 10)]

/-- The low `p` decimal digits of `v` with trailing zeros trimmed (what
the `fmtFrac` loop starting with `print = false` prints). -/
def fracChars : Nat → Nat → List Char
  | 0, _ => []
  | p + 1, v =>
    if v % 10 = 0 then fracChars p (v / 10)
    else padChars p (v / 10) ++ [digitChar (v % 10)]

/-- The head of the list, if any, is not a digit (where a number scan
stops). -/
def headNotDigit : List Char → Prop
  | [] => True
  | c :: _ => isDigitChar c = false

/-- The head of the list, if any, is a digit or a dot (where the unit
scan stops). -/
def headStopsUnit : List Char → Prop
  | [] => True
  | c :: _ => c = '.' ∨ isDigitChar c = true

/-- All characters are decimal digits. -/
def allDigits (ds : List Char) : Prop := ∀ c ∈ ds, isDigitChar c = true

/-- All characters are neither digits, dots, signs nor anything a
number scan would consume (unit names). -/
def allUnitChars (us : List Char) : Prop :=
  ∀ c ∈ us, ¬(c = '.' ∨ isDigitChar c = true)

/-! ## Concrete instances used by counterexamples and witnesses -/

/-- A one-field structure with a bool leaf (like the `BOOL` case of
`TestParseConfigEnvErrors`). -/
def cexBoolRoot : Fields := .fleaf (gstr "Bool") ⟨[], []⟩ .kbool .fnil

/-- Environment holding an unparseable value for `GF_BOOL`. -/
def cexEnvBool : Env :=
  fun k => if k = gstr "GF_BOOL" then some (gstr "unparseable") else none

/-- A file system with no files at all. -/
def fsAllMissing : FS := fun _ => .notExist

/-- A file system holding exactly `conf.json`, decoding to the empty
document. -/
def fsConfJson : FS :=
  fun p => if p = gstr "conf.json" then .file (.ok fun _ => none) else .notExist

/-- All-zero leaf storage. -/
def stateZero : State := fun _ => .vbool false

/-- A file system holding exactly `file.xyz` (unsupported extension). -/
def cexFsXyz : FS :=
  fun p => if p = gstr "file.xyz" then .file (.ok fun _ => none) else .notExist

/-- A four-leaf string structure exercising the full precedence chain
(flag + env + file, env + file, file only, none). -/
def cexC1root : Fields :=
  .fleaf (gstr "A") ⟨[], []⟩ .kstr
    (.fleaf (gstr "B") ⟨[], []⟩ .kstr
      (.fleaf (gstr "C") ⟨[], []⟩ .kstr
        (.fleaf (gstr "D") ⟨[], []⟩ .kstr .fnil)))

/-- A config document supplying the first three leaves. -/
def cexC1doc : Doc := fun a =>
  if a = [gstr "A"] then some (.vstr (gstr "fileA"))
  else if a = [gstr "B"] then some (.vstr (gstr "fileB"))
  else if a = [gstr "C"] then some (.vstr (gstr "fileC"))
  else none

/-- A file system holding `conf.json` with that document. -/
def cexC1fs : FS := fun p =>
  if p = gstr "conf.json" then .file (.ok cexC1doc) else .notExist

/-- An environment setting the first two leaves. -/
def cexC1env : Env := fun k =>
  if k = gstr "GF_A" then some (gstr "envA")
  else if k = gstr "GF_B" then some (gstr "envB")
  else none

/-! # Theorems -/

/-! ## Generic lemmas about the walker and the passes -/

theorem updState_self (σ : State) (a : Addr) : updState σ a (σ a) = σ := by
  funext x
  unfold updState
  by_cases h : x = a
  · simp [h]
  · simp [h]

/-- The registration pass never changes the leaf storage: each `*Var`
registration writes the field's own current value back. -/
theorem walkFields_flagBuilder_fst (tag : CfgTag) (fs : Fields) :
    ∀ (parents : List GoStr) (addr : Addr) (st : State × List FlagReg),
      ((walkFields flagBuilder tag parents addr fs st).1).1 = st.1 := by
  induction fs with
  | fnil => intro p a st; rfl
  | fleaf n tg k r ih =>
    intro p a st
    simp only [walkFields, flagBuilder, registerFlag]
    split
    · exact ih p a st
    · split
      · next st2 e heq =>
        split at heq
        · injection heq with h1 h2
          rw [← h1]
        · injection heq with h1 h2
          exact absurd h2 (by simp)
      · next st2 heq =>
        split at heq
        · injection heq with h1 h2
          exact absurd h2 (by simp)
        · injection heq with h1 h2
          rw [← h1, ih]
          simp [updState_self]
  | fsub n tg body r ihb ihr =>
    intro p a st
    simp only [walkFields]
    split
    · exact ihr p a st
    · split
      · next st2 e heq =>
        have hst2 := ihb (p ++ [toLowerStr (if splitHeadComma (tg.get tag) = [] then n else splitHeadComma (tg.get tag))]) (a ++ [n]) st
        rw [heq] at hst2
        exact hst2
      · next st2 heq =>
        have hst2 := ihb (p ++ [toLowerStr (if splitHeadComma (tg.get tag) = [] then n else splitHeadComma (tg.get tag))]) (a ++ [n]) st
        rw [heq] at hst2
        rw [ihr]
        exact hst2

/-- No exit path of `decodeConfigFile` emits a close event (the source
never calls `f.Close()`). -/
theorem decodeConfigFile_no_close (fname : GoStr) (res : Except GoStr Doc) (σ : State) :
    ((decodeConfigFile fname res σ).2.2.filter isCloseEv) = [] := by
  unfold decodeConfigFile
  split <;> (dsimp only; split <;> simp [isCloseEv])

/-- `parseStruct` with `flagBuilder` leaves the leaf storage unchanged. -/
theorem parseStructGo_flagBuilder_fst (tag : CfgTag) (root : Fields)
    (st : State × List FlagReg) :
    ((parseStructGo flagBuilder tag root st).1).1 = st.1 :=
  walkFields_flagBuilder_fst tag root [] [] st

/-- The nested probe loops equal the scan of the flattened candidate
list: each base name in order, each of `.json`, `.toml`, `.yaml` in
order. -/
theorem probeFiles_eq_firstHit (fs : FS) (bases : List GoStr) :
    probeFiles fs bases = firstHitSpec fs (fileCandidates bases) := by
  induction bases with
  | nil => rfl
  | cons b bs ih =>
    have hc : fileCandidates (b :: bs) =
        (b ++ gstr ".json") :: (b ++ gstr ".toml") :: (b ++ gstr ".yaml") ::
          fileCandidates bs := by
      simp [fileCandidates, cfgFileExt]
    rw [hc]
    simp only [probeFiles, probeExts, cfgFileExt, firstHitSpec]
    cases fs (b ++ gstr ".json") with
    | notExist =>
      cases fs (b ++ gstr ".toml") with
      | notExist =>
        cases fs (b ++ gstr ".yaml") with
        | notExist => exact ih
        | openErr m => rfl
        | file r => rfl
      | openErr m => rfl
      | file r => rfl
    | openErr m => rfl
    | file r => rfl

/-- Scanning a candidate list whose prefix is all missing skips that
prefix. -/
theorem firstHitSpec_append_missing (fs : FS) (pre l : List GoStr)
    (h : ∀ x ∈ pre, fs x = .notExist) :
    firstHitSpec fs (pre ++ l) = firstHitSpec fs l := by
  induction pre with
  | nil => rfl
  | cons c cs ih =>
    have hc : fs c = .notExist := h c (List.mem_cons_self c cs)
    simp only [List.cons_append, firstHitSpec, hc]
    exact ih fun x hx => h x (List.mem_cons_of_mem c hx)

/-- An all-missing candidate list scans to nothing. -/
theorem firstHitSpec_missing (fs : FS) (l : List GoStr)
    (h : ∀ x ∈ l, fs x = .notExist) : firstHitSpec fs l = .nothing := by
  have := firstHitSpec_append_missing fs l [] h
  simpa using this

/-! ## Claim C2: the config-file flag scan (code bug) -/

/-- Claim C2, evaluated on the code: `parseConfigFlag` guards the
access `args[i+1]` with `len(os.Args) > i+1` — the process argument
vector's length, not the supplied token list's.  (1) With
`len(os.Args) = 1` the two-token occurrence `-c cfg.toml` in the
supplied list is not recognized and the scan yields no path, against
the claim; (2) with `-c` as the last supplied token and
`len(os.Args) = 2` (any honest `Parse()` call with `-c` last), the
guard passes and `args[i+1]` panics with an index out of range; (3, 4)
with consistent lengths the two forms behave as the claim states. -/
theorem claim_C2_code_bug :
    parseConfigFlag (gstr "c") 1 [gstr "-c", gstr "cfg.toml"] = some [] ∧
    parseConfigFlag (gstr "c") 2 [gstr "-c"] = none ∧
    parseConfigFlag (gstr "c") 3 [gstr "-c", gstr "cfg.toml"] = some (gstr "cfg.toml") ∧
    parseConfigFlag (gstr "c") 3 [gstr "-c=cfg.toml"] = some (gstr "cfg.toml") := by
  refine ⟨by decide, by decide, by decide, by decide⟩

/-- Every error path of `ParseDuration` returns the zero duration. -/
theorem parseDuration_fail_zero (s : GoStr) (h : (parseDuration s).2 ≠ none) :
    (parseDuration s).1 = 0 := by
  unfold parseDuration at h ⊢
  by_cases h0 : (stripSign s).2 = gstr "0"
  · simp [h0] at h
  · by_cases h1 : (stripSign s).2 = []
    · simp only [h0, h1, if_false]
      split <;> rfl
    · simp only [h0, h1, if_false] at h ⊢
      cases hm : parseDurationLoop ((stripSign s).2.length + 1) 0 (stripSign s).2 s with
      | mk d o =>
        cases o with
        | some e => simp [hm]
        | none => simp [hm] at h

/-! ## Claim C10: UnmarshalText vs Set on parse failure -/

/-- Claim C10: `UnmarshalText` always overwrites the receiver with the
parse result — the zero duration alongside the error when the parse
fails — while `Set` leaves the receiver unchanged on failure and writes
the parsed value on success. -/
theorem claim_C10 (old : Int) (text : GoStr) :
    durationUnmarshalText old text = ((parseDuration text).1, (parseDuration text).2) ∧
    ((parseDuration text).2 ≠ none →
      (parseDuration text).1 = 0 ∧
      durationSet old text = (old, (parseDuration text).2)) ∧
    ((parseDuration text).2 = none →
      durationSet old text = ((parseDuration text).1, none)) := by
  refine ⟨rfl, ?_, ?_⟩
  · intro hfail
    refine ⟨parseDuration_fail_zero text hfail, ?_⟩
    cases h : (parseDuration text).2 with
    | none => exact absurd h hfail
    | some e => simp [durationSet, h]
  · intro hok
    simp [durationSet, hok]

/-- Witness for C10 at the malformed text `xx` and receiver 5. -/
theorem claim_C10_witness :
    durationUnmarshalText 5 (gstr "xx") = (0, some (errInvalidDur (gstr "xx"))) ∧
    durationSet 5 (gstr "xx") = (5, some (errInvalidDur (gstr "xx"))) := by
  obtain ⟨h1, h2, _⟩ := claim_C10 5 (gstr "xx")
  obtain ⟨h2a, h2b⟩ := h2 (by decide)
  constructor
  · rw [h1]; decide
  · rw [h2b]; decide

/-! ## Claim C8: the Duration environment-parse error message -/

/-- Claim C8 as amended: when the environment variable for a
Duration-typed field does not parse, the environment pass fails with
the templated message whose final slot is the *package-qualified* type
name `gofig.Duration` (what `f.Type()` renders), not the bare name
`Duration` and not the reflect kind. -/
theorem claim_C8 (pfx : GoStr) (env : Env) (path : List GoStr) (addr : Addr)
    (tags : GoTags) (σ : State) (val : GoStr)
    (henv : env (getEnvKey pfx path) = some val)
    (hbad : (parseDuration val).2 ≠ none) :
    envDecoder pfx env path addr .kdur tags σ =
      (σ, some (envErrTemplate (getEnvKey pfx path) val (gstr "gofig.Duration"))) := by
  cases h2 : (parseDuration val).2 with
  | none => exact absurd h2 hbad
  | some e => simp [envDecoder, henv, h2]

/-- Witness for C8: prefix `GF`, field path `duration`, value
`unparseable` (the exact scenario of `TestParseConfigEnvErrors`). -/
theorem claim_C8_witness :
    envDecoder (gstr "GF") (fun k => if k = gstr "GF_DURATION" then some (gstr "unparseable") else none)
        [gstr "duration"] [gstr "Duration"] .kdur ⟨[], []⟩ stateZero =
      (stateZero,
        some (envErrTemplate (gstr "GF_DURATION") (gstr "unparseable") (gstr "gofig.Duration"))) := by
  have h := claim_C8 (gstr "GF")
    (fun k => if k = gstr "GF_DURATION" then some (gstr "unparseable") else none)
    [gstr "duration"] [gstr "Duration"] ⟨[], []⟩ stateZero (gstr "unparseable")
    (by decide) (by decide)
  rw [h]
  have : getEnvKey (gstr "GF") [gstr "duration"] = gstr "GF_DURATION" := by decide
  rw [this]

/-- Counterexample to C8 as stated: the message produced for
`GF_DURATION=unparseable` ends in `gofig.Duration`; it is not the
claimed message ending in bare `Duration`. -/
theorem claim_C8_counterexample :
    (envDecoder (gstr "GF") (fun k => if k = gstr "GF_DURATION" then some (gstr "unparseable") else none)
        [gstr "duration"] [gstr "Duration"] .kdur ⟨[], []⟩ stateZero).2 =
      some (envErrTemplate (gstr "GF_DURATION") (gstr "unparseable") (gstr "gofig.Duration")) ∧
    (decide (envErrTemplate (gstr "GF_DURATION") (gstr "unparseable") (gstr "gofig.Duration") =
      envErrTemplate (gstr "GF_DURATION") (gstr "unparseable") (gstr "Duration"))) = false := by
  constructor
  · decide
  · decide

/-! ## Claim C9: file handles are never released (corrected) -/

/-- Claim C9 as amended: the config-file phase *never* emits a close
event on any exit path — the source contains no `f.Close()` — so an
opened handle is still open when the phase returns (it is released only
when the process exits). -/
theorem claim_C9 (gf : Gofig) (fs : FS) (osArgsLen : Nat) (args : List GoStr)
    (σ : State) :
    ((parseConfigFile gf fs osArgsLen args σ).2.2.filter isCloseEv) = [] := by
  unfold parseConfigFile
  cases parseConfigFlag gf.cfgFlagNameStr osArgsLen args with
  | none => rfl
  | some v =>
    simp only []
    split
    · cases hfs : fs v with
      | file res =>
        simp only [hfs, List.filter]
        have := decodeConfigFile_no_close v res σ
        simpa [isCloseEv] using this
      | notExist => simp [hfs]
      | openErr m => simp [hfs]
    · cases hp : probeFiles fs gf.cfgFiles with
      | nothing => simp [hp]
      | failed e => simp [hp]
      | found name res =>
        simp only [hp, List.filter]
        have := decodeConfigFile_no_close name res σ
        simpa [isCloseEv] using this

/-- Counterexample to C9 as stated: probing opens `conf.json`, decodes
it, and returns with the handle still open — the events are exactly one
open and one decode, with no close. -/
theorem claim_C9_counterexample :
    (parseConfigFile ⟨[], none, [gstr "conf"]⟩ fsConfJson 1 [] stateZero).2.2 =
      [.opened (gstr "conf.json"), .decoded (gstr "conf.json")] ∧
    ((parseConfigFile ⟨[], none, [gstr "conf"]⟩ fsConfJson 1 [] stateZero).2.2.filter
        isCloseEv) = [] := by
  constructor
  · decide
  · decide

/-! ## Claim C3: the config-file search order -/

/-- Claim C3: when the argument scan yields no explicit config-file
value, the phase probes base names in the order added, extensions
`.json`, `.toml`, `.yaml` in that fixed order; it opens and decodes
exactly the first existing candidate and stops; if every candidate is
missing the phase is skipped without error. -/
theorem claim_C3 (gf : Gofig) (fs : FS) (osArgsLen : Nat) (args : List GoStr)
    (σ : State)
    (hscan : parseConfigFlag gf.cfgFlagNameStr osArgsLen args = some []) :
    ((∀ c ∈ fileCandidates gf.cfgFiles, fs c = .notExist) →
      parseConfigFile gf fs osArgsLen args σ = (σ, none, [])) ∧
    (∀ pre c post res, fileCandidates gf.cfgFiles = pre ++ c :: post →
      (∀ x ∈ pre, fs x = .notExist) → fs c = .file res →
      parseConfigFile gf fs osArgsLen args σ =
        ((decodeConfigFile c res σ).1, (decodeConfigFile c res σ).2.1.map .err,
          .opened c :: (decodeConfigFile c res σ).2.2)) := by
  constructor
  · intro hall
    unfold parseConfigFile
    rw [hscan]
    have hnothing : probeFiles fs gf.cfgFiles = .nothing := by
      rw [probeFiles_eq_firstHit]
      exact firstHitSpec_missing fs _ hall
    simp [hnothing]
  · intro pre c post res hsplit hpre hc
    unfold parseConfigFile
    rw [hscan]
    have hfound : probeFiles fs gf.cfgFiles = .found c res := by
      rw [probeFiles_eq_firstHit, hsplit, firstHitSpec_append_missing fs pre _ hpre]
      simp [firstHitSpec, hc]
    simp [hfound]

/-- Witness for C3: one base name `conf`, only `conf.json` existing:
the phase decodes exactly `conf.json`. -/
theorem claim_C3_witness :
    parseConfigFile ⟨[], none, [gstr "conf"]⟩ fsConfJson 1 [] stateZero =
      ((decodeConfigFile (gstr "conf.json") (.ok fun _ => none) stateZero).1,
        (decodeConfigFile (gstr "conf.json") (.ok fun _ => none) stateZero).2.1.map .err,
        .opened (gstr "conf.json") ::
          (decodeConfigFile (gstr "conf.json") (.ok fun _ => none) stateZero).2.2) := by
  have h := (claim_C3 ⟨[], none, [gstr "conf"]⟩ fsConfJson 1 [] stateZero (by decide)).2
  exact h [] (gstr "conf.json") [gstr "conf.toml", gstr "conf.yaml"] (.ok fun _ => none)
    (by decide) (by intro x hx; simp at hx) rfl

/-- An unsupported extension makes `decodeConfigFile` fail with
`config file type not supported`, no decoder running. -/
theorem decodeConfigFile_unsupported (p : GoStr) (res : Except GoStr Doc) (σ : State)
    (hext : ¬(filepathExt p = gstr ".json" ∨ filepathExt p = gstr ".toml" ∨
        filepathExt p = gstr ".yaml")) :
    decodeConfigFile p res σ = (σ, some (gstr "config file type not supported"), []) := by
  unfold decodeConfigFile
  dsimp only
  rw [if_neg hext]

/-- Eliminating the registration pass: when it succeeds, a resolution
call is the config-file phase followed by the environment pass and
flag parsing, starting from the unchanged initial state. -/
theorem gofigParse_pass1 (gf : Gofig) (root : Fields) (σ0 : State) (fs : FS)
    (env : Env) (osArgsLen : Nat) (args : List GoStr)
    (hreg : (parseStructGo flagBuilder .flag root (σ0, initRegs gf)).2 = none) :
    gofigParse gf root σ0 fs env osArgsLen args =
      (match parseConfigFile gf fs osArgsLen args σ0 with
       | (σ2, some e, _) => (σ2, some e)
       | (σ2, none, _) =>
         match parseStructGo (envDecoder gf.envPfx env) .env root σ2 with
         | (σ3, some e) => (σ3, some (.err e))
         | (σ3, none) =>
           let r := flagParse (parseStructGo flagBuilder .flag root (σ0, initRegs gf)).1.2 σ3 args
           (r.1, r.2.map .err)) := by
  unfold gofigParse
  cases hps : parseStructGo flagBuilder .flag root (σ0, initRegs gf) with
  | mk st1 eo =>
    obtain ⟨σ1, regs⟩ := st1
    rw [hps] at hreg
    change eo = none at hreg
    subst hreg
    have hσ1 : σ1 = σ0 := by
      have h2 := parseStructGo_flagBuilder_fst .flag root (σ0, initRegs gf)
      rw [hps] at h2
      exact h2
    subst hσ1
    rfl

/-! ## Claim C4: resolution errors (corrected: bool env values) -/

/-- Claim C4 as amended: (1) an explicit config-file flag pointing at a
missing path fails the call with the open error, leaving the state as
registration left it and running no later phase; (2) an openable path
with an extension that is none of `.json`/`.toml`/`.yaml` fails the
call with `config file type not supported`, likewise ending it; (3)
for integer, unsigned, float64 and Duration fields, a malformed
environment value fails with the templated error naming the offending
key, value, and target type — but for bool fields the underlying
strconv error is returned verbatim, naming the value and not the key;
(4) an
environment-pass error ends the call with exactly the state the
environment pass reached (flag parsing never runs). -/
theorem claim_C4 :
    (∀ (gf : Gofig) (root : Fields) (σ0 : State) (fs : FS) (env : Env)
        (osArgsLen : Nat) (args : List GoStr) (p : GoStr),
      (parseStructGo flagBuilder .flag root (σ0, initRegs gf)).2 = none →
      parseConfigFlag gf.cfgFlagNameStr osArgsLen args = some p → p ≠ [] →
      fs p = .notExist →
      gofigParse gf root σ0 fs env osArgsLen args =
        (σ0, some (.err (errFileNotExist p)))) ∧
    (∀ (gf : Gofig) (root : Fields) (σ0 : State) (fs : FS) (env : Env)
        (osArgsLen : Nat) (args : List GoStr) (p : GoStr) (res : Except GoStr Doc),
      (parseStructGo flagBuilder .flag root (σ0, initRegs gf)).2 = none →
      parseConfigFlag gf.cfgFlagNameStr osArgsLen args = some p → p ≠ [] →
      fs p = .file res →
      ¬(filepathExt p = gstr ".json" ∨ filepathExt p = gstr ".toml" ∨
          filepathExt p = gstr ".yaml") →
      gofigParse gf root σ0 fs env osArgsLen args =
        (σ0, some (.err (gstr "config file type not supported")))) ∧
    (∀ (pfx val : GoStr) (env : Env) (path : List GoStr) (addr : Addr)
        (tags : GoTags) (σ : State) (k : Kind),
      env (getEnvKey pfx path) = some val →
      ((k = .kint ∨ k = .kint64) → parseIntGo 10 val = none →
        envDecoder pfx env path addr k tags σ =
          (σ, some (envErrTemplate (getEnvKey pfx path) val (kindName k)))) ∧
      ((k = .kuint ∨ k = .kuint64) → parseUintGo 10 val = none →
        envDecoder pfx env path addr k tags σ =
          (σ, some (envErrTemplate (getEnvKey pfx path) val (kindName k)))) ∧
      (k = .kfloat64 → parseFloatGo val = none →
        envDecoder pfx env path addr k tags σ =
          (σ, some (envErrTemplate (getEnvKey pfx path) val (kindName k)))) ∧
      (k = .kdur → (parseDuration val).2 ≠ none →
        envDecoder pfx env path addr k tags σ =
          (σ, some (envErrTemplate (getEnvKey pfx path) val (gstr "gofig.Duration")))) ∧
      (∀ e, k = .kbool → parseBoolGo val = .error e →
        envDecoder pfx env path addr k tags σ = (σ, some e))) ∧
    (∀ (gf : Gofig) (root : Fields) (σ0 : State) (fs : FS) (env : Env)
        (osArgsLen : Nat) (args : List GoStr) (σ2 : State) (evs : List FileEv)
        (σ3 : State) (e : GoStr),
      (parseStructGo flagBuilder .flag root (σ0, initRegs gf)).2 = none →
      parseConfigFile gf fs osArgsLen args σ0 = (σ2, none, evs) →
      parseStructGo (envDecoder gf.envPfx env) .env root σ2 = (σ3, some e) →
      gofigParse gf root σ0 fs env osArgsLen args = (σ3, some (.err e))) := by
  refine ⟨?_, ?_, ?_, ?_⟩
  · intro gf root σ0 fs env osArgsLen args p hreg hscan hp hfs
    rw [gofigParse_pass1 gf root σ0 fs env osArgsLen args hreg]
    unfold parseConfigFile
    rw [hscan]
    dsimp only
    rw [if_pos hp, hfs]
  · intro gf root σ0 fs env osArgsLen args p res hreg hscan hp hfs hext
    rw [gofigParse_pass1 gf root σ0 fs env osArgsLen args hreg]
    unfold parseConfigFile
    rw [hscan]
    dsimp only
    rw [if_pos hp, hfs]
    dsimp only
    rw [decodeConfigFile_unsupported p res σ0 hext]
    rfl
  · intro pfx val env path addr tags σ k henv
    refine ⟨?_, ?_, ?_, ?_, ?_⟩
    · rintro (rfl | rfl) hbad <;> simp [envDecoder, henv, hbad, kindName]
    · rintro (rfl | rfl) hbad <;> simp [envDecoder, henv, hbad, kindName]
    · rintro rfl hbad
      simp [envDecoder, henv, hbad, kindName]
    · rintro rfl hbad
      cases h2 : (parseDuration val).2 with
      | none => exact absurd h2 hbad
      | some e => simp [envDecoder, henv, h2]
    · rintro e rfl hbad
      simp [envDecoder, henv, hbad]
  · intro gf root σ0 fs env osArgsLen args σ2 evs σ3 e hreg hfile henv
    rw [gofigParse_pass1 gf root σ0 fs env osArgsLen args hreg, hfile]
    dsimp only
    rw [henv]

/-- Witness for C4 at concrete inputs: a missing `missing.toml` via
`-c`, an unsupported `file.xyz` via `-c`, an unparseable `GF_INT`, an
unparseable `GF_FLOAT` (the test's FLOAT case), and a full resolution
ending at the environment pass. -/
theorem claim_C4_witness :
    gofigParse ⟨[], some (gstr "c"), []⟩ cexBoolRoot stateZero fsAllMissing
        (fun _ => none) 3 [gstr "-c", gstr "missing.toml"] =
      (stateZero, some (.err (errFileNotExist (gstr "missing.toml")))) ∧
    gofigParse ⟨[], some (gstr "c"), []⟩ cexBoolRoot stateZero cexFsXyz
        (fun _ => none) 3 [gstr "-c", gstr "file.xyz"] =
      (stateZero, some (.err (gstr "config file type not supported"))) ∧
    envDecoder (gstr "GF") (fun k => if k = gstr "GF_INT" then some (gstr "unparseable") else none)
        [gstr "int"] [gstr "Int"] .kint ⟨[], []⟩ stateZero =
      (stateZero,
        some (envErrTemplate (gstr "GF_INT") (gstr "unparseable") (kindName .kint))) ∧
    envDecoder (gstr "GF")
        (fun k => if k = gstr "GF_FLOAT" then some (gstr "unparseable") else none)
        [gstr "float"] [gstr "Float"] .kfloat64 ⟨[], []⟩ stateZero =
      (stateZero,
        some (envErrTemplate (gstr "GF_FLOAT") (gstr "unparseable") (kindName .kfloat64))) ∧
    gofigParse ⟨gstr "GF", none, []⟩ cexBoolRoot stateZero fsAllMissing cexEnvBool 1 [] =
      (stateZero,
        some (.err (gstr "strconv.ParseBool: parsing \"unparseable\": invalid syntax"))) := by
  obtain ⟨h1, h2, h3, h4⟩ := claim_C4
  refine ⟨?_, ?_, ?_, ?_, ?_⟩
  · exact h1 ⟨[], some (gstr "c"), []⟩ cexBoolRoot stateZero fsAllMissing
      (fun _ => none) 3 [gstr "-c", gstr "missing.toml"] (gstr "missing.toml")
      (by decide) (by decide) (by decide) rfl
  · exact h2 ⟨[], some (gstr "c"), []⟩ cexBoolRoot stateZero cexFsXyz
      (fun _ => none) 3 [gstr "-c", gstr "file.xyz"] (gstr "file.xyz")
      (.ok fun _ => none) (by decide) (by decide) (by decide) rfl (by decide)
  · have h3a := (h3 (gstr "GF") (gstr "unparseable")
      (fun k => if k = gstr "GF_INT" then some (gstr "unparseable") else none)
      [gstr "int"] [gstr "Int"] ⟨[], []⟩ stateZero .kint (by decide)).1
    have := h3a (Or.inl rfl) (by decide)
    rw [this]
    have hkey : getEnvKey (gstr "GF") [gstr "int"] = gstr "GF_INT" := by decide
    rw [hkey]
  · have h3f := (h3 (gstr "GF") (gstr "unparseable")
      (fun k => if k = gstr "GF_FLOAT" then some (gstr "unparseable") else none)
      [gstr "float"] [gstr "Float"] ⟨[], []⟩ stateZero .kfloat64 (by decide)).2.2.1
    have := h3f rfl (by decide)
    rw [this]
    have hkey : getEnvKey (gstr "GF") [gstr "float"] = gstr "GF_FLOAT" := by decide
    rw [hkey]
  · exact h4 ⟨gstr "GF", none, []⟩ cexBoolRoot stateZero fsAllMissing cexEnvBool 1 []
      stateZero [] stateZero
      (gstr "strconv.ParseBool: parsing \"unparseable\": invalid syntax")
      (by decide) rfl rfl

/-- Counterexample to C4 as stated: for a bool field, the environment
error is the raw strconv message — it names the value but not the key
`GF_BOOL` (the repo's own test asserts this message). -/
theorem claim_C4_counterexample :
    (gofigParse ⟨gstr "GF", none, []⟩ cexBoolRoot stateZero fsAllMissing cexEnvBool 1 []).2 =
      some (.err (gstr "strconv.ParseBool: parsing \"unparseable\": invalid syntax")) ∧
    decide ((gstr "GF_BOOL") <:+:
      (gstr "strconv.ParseBool: parsing \"unparseable\": invalid syntax")) = false := by
  exact ⟨by decide, by decide⟩


/-! ## Duration round-trip, part 1: digit strings -/

theorem digitVal_digitChar (d : Nat) (h : d < 10) : digitVal (digitChar d) = d := by
  interval_cases d <;> decide

theorem isDigitChar_digitChar (d : Nat) (h : d < 10) :
    isDigitChar (digitChar d) = true := by
  interval_cases d <;> decide

theorem isDigitChar_ne_special (c : Char) (h : isDigitChar c = true) :
    c ≠ '.' ∧ c ≠ '-' ∧ c ≠ '+' := by
  refine ⟨?_, ?_, ?_⟩ <;> rintro rfl <;> revert h <;> decide

theorem charsVal_from (ds : List Char) :
    ∀ a : Nat, ds.foldl (fun a c => a * 10 + digitVal c) a =
      a * 10 ^ ds.length + charsVal ds := by
  induction ds with
  | nil => intro a; simp [charsVal]
  | cons c r ih =>
    intro a
    have h1 := ih (a * 10 + digitVal c)
    have h2 := ih (digitVal c)
    simp only [List.foldl_cons] at *
    rw [h1]
    have hc : charsVal (c :: r) = digitVal c * 10 ^ r.length + charsVal r := by
      unfold charsVal
      simp only [List.foldl_cons]
      have := ih (0 * 10 + digitVal c)
      simpa using this
    rw [hc]
    simp only [List.length_cons, pow_succ]
    ring

theorem charsVal_cons (c : Char) (r : List Char) :
    charsVal (c :: r) = digitVal c * 10 ^ r.length + charsVal r := by
  unfold charsVal
  simp only [List.foldl_cons]
  simpa using charsVal_from r (0 * 10 + digitVal c)

theorem charsVal_append_singleton (ds : List Char) (c : Char) :
    charsVal (ds ++ [c]) = charsVal ds * 10 + digitVal c := by
  unfold charsVal
  rw [List.foldl_append]
  simp

/-- `fmtIntCore` prepends to its accumulator. -/
theorem fmtIntCore_acc (fuel : Nat) :
    ∀ (v : Nat) (acc : List Char),
      fmtIntCore fuel v acc = fmtIntCore fuel v [] ++ acc := by
  induction fuel with
  | zero => intro v acc; rfl
  | succ f ih =>
    intro v acc
    by_cases h : v = 0
    · simp [fmtIntCore, h]
    · simp only [fmtIntCore, h, if_false]
      rw [ih (v / 10) [digitChar (v % 10)], ih (v / 10) (digitChar (v % 10) :: acc)]
      simp

theorem fmtInt_acc (v : Nat) (acc : List Char) :
    fmtInt v acc = decChars v ++ acc := by
  unfold fmtInt decChars
  by_cases h : v = 0
  · simp [fmtInt, h]
  · simp only [fmtInt, h, if_false]
    exact fmtIntCore_acc 24 v acc

/-- Correctness of the digit loop for positive values below `10^fuel`:
the printed digits are nonempty, are digits, and read back to `v`. -/
theorem fmtIntCore_spec (fuel : Nat) :
    ∀ v : Nat, 0 < v → v < 10 ^ fuel →
      charsVal (fmtIntCore fuel v []) = v ∧ fmtIntCore fuel v [] ≠ [] ∧
        allDigits (fmtIntCore fuel v []) := by
  induction fuel with
  | zero => intro v hv hlt; omega
  | succ f ih =>
    intro v hv hlt
    have hv0 : ¬v = 0 := by omega
    simp only [fmtIntCore, hv0, if_false]
    rw [fmtIntCore_acc]
    by_cases hsmall : v / 10 = 0
    · rw [hsmall]
      have hz : ∀ acc : List Char, fmtIntCore f 0 acc = acc := by
        intro acc; cases f <;> rfl
      rw [hz]
      have hd : v % 10 = v := by omega
      refine ⟨?_, by simp, ?_⟩
      · simp [charsVal, hd]
        exact digitVal_digitChar v (by omega)
      · intro c hc
        simp at hc
        subst hc
        exact isDigitChar_digitChar _ (by omega)
    · have hpos : 0 < v / 10 := Nat.pos_of_ne_zero hsmall
      have hlt2 : v / 10 < 10 ^ f := by
        rw [Nat.div_lt_iff_lt_mul (by norm_num)]
        calc v < 10 ^ (f + 1) := hlt
        _ = 10 ^ f * 10 := by ring
      obtain ⟨hval, hne, hdig⟩ := ih (v / 10) hpos hlt2
      refine ⟨?_, by simp [hne], ?_⟩
      · rw [charsVal_append_singleton, hval, digitVal_digitChar (v % 10) (by omega)]
        omega
      · intro c hc
        rw [List.mem_append] at hc
        rcases hc with hc | hc
        · exact hdig c hc
        · simp at hc
          subst hc
          exact isDigitChar_digitChar _ (by omega)

/-- The digits of `v ≤ maxI` (19 decimal digits at most, well within
fuel 24). -/
theorem decChars_spec (v : Nat) (h : v ≤ maxI) :
    charsVal (decChars v) = v ∧ decChars v ≠ [] ∧ allDigits (decChars v) := by
  unfold decChars fmtInt
  by_cases h0 : v = 0
  · subst h0
    refine ⟨by decide, by decide, ?_⟩
    intro c hc
    simp at hc
    subst hc
    decide
  · simp only [h0, if_false]
    exact fmtIntCore_spec 24 v (Nat.pos_of_ne_zero h0)
      (lt_of_le_of_lt h (by unfold maxI; norm_num))


/-! ## Duration round-trip, part 2: the number scans -/

theorem mod_ten_pow_succ (v q : Nat) :
    v % (10 * 10 ^ q) = v % 10 + 10 * (v / 10 % 10 ^ q) := by
  have h1 : v = (v % 10 + 10 * (v / 10 % 10 ^ q)) + (10 * 10 ^ q) * (v / 10 / 10 ^ q) := by
    calc v = 10 * (v / 10) + v % 10 := by omega
    _ = 10 * (10 ^ q * (v / 10 / 10 ^ q) + v / 10 % 10 ^ q) + v % 10 := by
        rw [Nat.div_add_mod (v / 10) (10 ^ q)]
    _ = (v % 10 + 10 * (v / 10 % 10 ^ q)) + (10 * 10 ^ q) * (v / 10 / 10 ^ q) := by ring
  have h2 : v % 10 + 10 * (v / 10 % 10 ^ q) < 10 * 10 ^ q := by
    have ha : v % 10 < 10 := Nat.mod_lt _ (by norm_num)
    have hb : v / 10 % 10 ^ q < 10 ^ q := Nat.mod_lt _ (pow_pos (by norm_num) q)
    omega
  calc v % (10 * 10 ^ q)
      = ((v % 10 + 10 * (v / 10 % 10 ^ q)) + (10 * 10 ^ q) * (v / 10 / 10 ^ q)) %
          (10 * 10 ^ q) := by rw [← h1]
  _ = (v % 10 + 10 * (v / 10 % 10 ^ q)) % (10 * 10 ^ q) := by
      rw [Nat.add_mul_mod_self_left]
  _ = v % 10 + 10 * (v / 10 % 10 ^ q) := Nat.mod_eq_of_lt h2

theorem leadingInt_digits (ds : List Char) :
    ∀ (x : Nat) (rest : List Char), allDigits ds → headNotDigit rest →
      x * 10 ^ ds.length + charsVal ds ≤ maxI →
      leadingInt x (ds ++ rest) = some (x * 10 ^ ds.length + charsVal ds, rest) := by
  induction ds with
  | nil =>
    intro x rest _ hrest hb
    have hv : charsVal [] = 0 := rfl
    cases rest with
    | nil => simp [leadingInt, hv]
    | cons c r2 =>
      unfold headNotDigit at hrest
      simp [leadingInt, hrest, hv]
  | cons c ds ih =>
    intro x rest hdig hrest hb
    have hc : isDigitChar c = true := hdig c (by simp)
    have hdig2 : allDigits ds := fun d hd => hdig d (by simp [hd])
    have hstep : (x * 10 + digitVal c) * 10 ^ ds.length + charsVal ds =
        x * 10 ^ (c :: ds).length + charsVal (c :: ds) := by
      rw [charsVal_cons]
      simp only [List.length_cons, pow_succ]
      ring
    have hb2 : (x * 10 + digitVal c) * 10 ^ ds.length + charsVal ds ≤ maxI := by
      rw [hstep]; exact hb
    have hone : 1 ≤ 10 ^ ds.length := Nat.one_le_pow _ _ (by norm_num)
    have hx2 : x * 10 + digitVal c ≤ maxI := by
      have h1 : (x * 10 + digitVal c) * 1 ≤ (x * 10 + digitVal c) * 10 ^ ds.length :=
        Nat.mul_le_mul_left _ hone
      omega
    have hx10 : ¬x > maxI / 10 := by
      rw [not_lt, Nat.le_div_iff_mul_le (by norm_num)]
      omega
    have hx2n : ¬x * 10 + digitVal c > maxI := by omega
    simp only [List.cons_append, leadingInt, hc, if_true, hx10, if_false, hx2n]
    rw [show (ds.append rest) = ds ++ rest from rfl,
      ih (x * 10 + digitVal c) rest hdig2 hrest hb2, hstep]

theorem leadingFractionCore_digits (ds : List Char) :
    ∀ (x k : Nat) (rest : List Char), allDigits ds → headNotDigit rest →
      x * 10 ^ ds.length + charsVal ds ≤ maxI →
      leadingFractionCore (ds ++ rest) x k false =
        (x * 10 ^ ds.length + charsVal ds, k + ds.length, rest) := by
  induction ds with
  | nil =>
    intro x k rest _ hrest hb
    have hv : charsVal [] = 0 := rfl
    cases rest with
    | nil => simp [leadingFractionCore, hv]
    | cons c r2 =>
      unfold headNotDigit at hrest
      simp [leadingFractionCore, hrest, hv]
  | cons c ds ih =>
    intro x k rest hdig hrest hb
    have hc : isDigitChar c = true := hdig c (by simp)
    have hdig2 : allDigits ds := fun d hd => hdig d (by simp [hd])
    have hstep : (x * 10 + digitVal c) * 10 ^ ds.length + charsVal ds =
        x * 10 ^ (c :: ds).length + charsVal (c :: ds) := by
      rw [charsVal_cons]
      simp only [List.length_cons, pow_succ]
      ring
    have hb2 : (x * 10 + digitVal c) * 10 ^ ds.length + charsVal ds ≤ maxI := by
      rw [hstep]; exact hb
    have hone : 1 ≤ 10 ^ ds.length := Nat.one_le_pow _ _ (by norm_num)
    have hx2 : x * 10 + digitVal c ≤ maxI := by
      have h1 : (x * 10 + digitVal c) * 1 ≤ (x * 10 + digitVal c) * 10 ^ ds.length :=
        Nat.mul_le_mul_left _ hone
      omega
    have hx10 : ¬x > maxI / 10 := by
      rw [not_lt, Nat.le_div_iff_mul_le (by norm_num)]
      omega
    have hx2n : ¬x * 10 + digitVal c > maxI := by omega
    simp only [List.cons_append, leadingFractionCore, hc, if_true, if_false, hx10, hx2n,
      Bool.false_eq_true]
    rw [show (ds.append rest) = ds ++ rest from rfl,
      ih (x * 10 + digitVal c) (k + 1) rest hdig2 hrest hb2, hstep]
    refine congrArg _ ?_
    refine congrArg (fun z => (z, rest)) ?_
    simp only [List.length_cons]
    omega

/-! ## Duration round-trip, part 3: the fraction printer -/

theorem padChars_length (p : Nat) : ∀ v, (padChars p v).length = p := by
  induction p with
  | zero => intro v; rfl
  | succ q ih => intro v; simp [padChars, ih]

theorem padChars_digits (p : Nat) : ∀ v, allDigits (padChars p v) := by
  induction p with
  | zero => intro v c hc; simp [padChars] at hc
  | succ q ih =>
    intro v c hc
    simp only [padChars, List.mem_append] at hc
    rcases hc with hc | hc
    · exact ih (v / 10) c hc
    · simp at hc
      subst hc
      exact isDigitChar_digitChar _ (by omega)

theorem padChars_val (p : Nat) : ∀ v, charsVal (padChars p v) = v % 10 ^ p := by
  induction p with
  | zero => intro v; simp [padChars, charsVal, Nat.mod_one]
  | succ q ih =>
    intro v
    simp only [padChars]
    rw [charsVal_append_singleton, ih (v / 10),
      digitVal_digitChar (v % 10) (by omega), pow_succ', mod_ten_pow_succ]
    ring

theorem fracChars_digits (p : Nat) : ∀ v, allDigits (fracChars p v) := by
  induction p with
  | zero => intro v c hc; simp [fracChars] at hc
  | succ q ih =>
    intro v c hc
    simp only [fracChars] at hc
    by_cases h0 : v % 10 = 0
    · rw [if_pos h0] at hc
      exact ih (v / 10) c hc
    · rw [if_neg h0] at hc
      simp only [List.mem_append] at hc
      rcases hc with hc | hc
      · exact padChars_digits q (v / 10) c hc
      · simp at hc
        subst hc
        exact isDigitChar_digitChar _ (by omega)

theorem fracChars_length_le (p : Nat) : ∀ v, (fracChars p v).length ≤ p := by
  induction p with
  | zero => intro v; simp [fracChars]
  | succ q ih =>
    intro v
    simp only [fracChars]
    by_cases h0 : v % 10 = 0
    · rw [if_pos h0]
      exact le_trans (ih (v / 10)) (by omega)
    · rw [if_neg h0]
      simp [padChars_length]

theorem fracChars_zero (p : Nat) : ∀ v, v % 10 ^ p = 0 → fracChars p v = [] := by
  induction p with
  | zero => intro v _; rfl
  | succ q ih =>
    intro v hv
    rw [pow_succ', mod_ten_pow_succ] at hv
    have h10 : v % 10 = 0 := by omega
    have hq : v / 10 % 10 ^ q = 0 := by omega
    simp [fracChars, h10, ih (v / 10) hq]

theorem fracChars_val (p : Nat) :
    ∀ v, v % 10 ^ p ≠ 0 →
      fracChars p v ≠ [] ∧
      charsVal (fracChars p v) * 10 ^ (p - (fracChars p v).length) = v % 10 ^ p := by
  induction p with
  | zero => intro v hv; simp [Nat.mod_one] at hv
  | succ q ih =>
    intro v hv
    have hsum : v % 10 ^ (q + 1) = v % 10 + 10 * (v / 10 % 10 ^ q) := by
      rw [pow_succ', mod_ten_pow_succ]
    by_cases h0 : v % 10 = 0
    · have hmod : v % 10 ^ (q + 1) = 10 * (v / 10 % 10 ^ q) := by omega
      have hv2 : v / 10 % 10 ^ q ≠ 0 := by
        intro h
        rw [h] at hmod
        simp at hmod
        exact hv hmod
      obtain ⟨hne, hval⟩ := ih (v / 10) hv2
      have hlen := fracChars_length_le q (v / 10)
      refine ⟨by simpa [fracChars, h0] using hne, ?_⟩
      simp only [fracChars, h0, if_true]
      rw [hmod, ← hval]
      have hq2 : q + 1 - (fracChars q (v / 10)).length =
          (q - (fracChars q (v / 10)).length) + 1 := by omega
      rw [hq2, pow_succ]
      ring
    · refine ⟨by simp [fracChars, h0], ?_⟩
      simp only [fracChars, h0, if_false]
      rw [charsVal_append_singleton, padChars_val q (v / 10),
        digitVal_digitChar (v % 10) (by omega)]
      simp only [List.length_append, padChars_length, List.length_singleton]
      have hz : q + 1 - (q + 1) = 0 := by omega
      rw [hz, hsum]
      ring


/-! ## Duration round-trip, part 4: fmtFrac closed form -/

theorem fmtFracCore_true (p : Nat) :
    ∀ (v : Nat) (acc : List Char),
      fmtFracCore v p true acc = (padChars p v ++ acc, v / 10 ^ p, true) := by
  induction p with
  | zero => intro v acc; simp [fmtFracCore, padChars]
  | succ q ih =>
    intro v acc
    have h1 : fmtFracCore v (q + 1) true acc =
        fmtFracCore (v / 10) q true (digitChar (v % 10) :: acc) := by
      simp [fmtFracCore]
    rw [h1, ih (v / 10) (digitChar (v % 10) :: acc)]
    simp [padChars, Nat.div_div_eq_div_mul, pow_succ']

theorem fmtFracCore_false (p : Nat) :
    ∀ (v : Nat) (acc : List Char),
      fmtFracCore v p false acc =
        (fracChars p v ++ acc, v / 10 ^ p, decide (v % 10 ^ p ≠ 0)) := by
  induction p with
  | zero => intro v acc; simp [fmtFracCore, fracChars, Nat.mod_one]
  | succ q ih =>
    intro v acc
    by_cases h0 : v % 10 = 0
    · have h1 : fmtFracCore v (q + 1) false acc = fmtFracCore (v / 10) q false acc := by
        simp [fmtFracCore, h0]
      rw [h1, ih (v / 10) acc]
      have hsum : v % 10 ^ (q + 1) = v % 10 + 10 * (v / 10 % 10 ^ q) := by
        rw [pow_succ', mod_ten_pow_succ]
      simp only [Prod.mk.injEq]
      refine ⟨?_, ?_, ?_⟩
      · simp [fracChars, h0]
      · simp [Nat.div_div_eq_div_mul, pow_succ']
      · rw [decide_eq_decide]
        constructor <;> intro h <;> omega
    · have h1 : fmtFracCore v (q + 1) false acc =
          fmtFracCore (v / 10) q true (digitChar (v % 10) :: acc) := by
        simp [fmtFracCore, h0]
      rw [h1, fmtFracCore_true q (v / 10) (digitChar (v % 10) :: acc)]
      have hne : v % 10 ^ (q + 1) ≠ 0 := by
        rw [pow_succ', mod_ten_pow_succ]
        omega
      simp [fracChars, h0, Nat.div_div_eq_div_mul, pow_succ', hne]
      rw [mod_ten_pow_succ]
      omega

theorem fmtFrac_spec (v p : Nat) (acc : List Char) :
    fmtFrac v p acc =
      (if v % 10 ^ p ≠ 0 then '.' :: (fracChars p v ++ acc) else acc, v / 10 ^ p) := by
  unfold fmtFrac
  rw [fmtFracCore_false p v acc]
  by_cases h : v % 10 ^ p = 0
  · simp [h, fracChars_zero p v h]
  · simp [h]


/-! ## Duration round-trip, part 5: one component of the parse loop -/

theorem headNotDigit_unit (us rest : List Char) (hus : allUnitChars us)
    (hne : us ≠ []) : headNotDigit (us ++ rest) := by
  cases us with
  | nil => exact absurd rfl hne
  | cons u us2 =>
    have h := hus u (by simp)
    unfold headNotDigit
    simp only [List.cons_append]
    cases hb : isDigitChar u with
    | false => rfl
    | true => exact absurd (Or.inr hb) h

theorem spanUnit_append (us : List Char) :
    ∀ rest, allUnitChars us → headStopsUnit rest →
      spanUnit (us ++ rest) = (us, rest) := by
  induction us with
  | nil =>
    intro rest _ hrest
    cases rest with
    | nil => rfl
    | cons c r2 =>
      have hc : c = '.' ∨ isDigitChar c = true := hrest
      rcases hc with hdot | hdig2
      · subst hdot
        unfold spanUnit
        simp [List.takeWhile_cons, List.dropWhile_cons]
      · unfold spanUnit
        simp [List.takeWhile_cons, List.dropWhile_cons, hdig2]
  | cons u us2 ih =>
    intro rest hus hrest
    have hu : ¬(u = '.' ∨ isDigitChar u = true) := hus u (by simp)
    have hdec : (decide (¬(u = '.' ∨ isDigitChar u = true))) = true := by
      simp only [decide_eq_true_eq]
      exact hu
    have hus2 : allUnitChars us2 := fun c hc => hus c (by simp [hc])
    have hrec := ih rest hus2 hrest
    unfold spanUnit at hrec ⊢
    simp only [List.cons_append, List.takeWhile_cons, List.dropWhile_cons, hdec, if_true]
    simp only [Prod.mk.injEq] at hrec ⊢
    exact ⟨by rw [hrec.1], hrec.2⟩

theorem durIter_nofrac (a unit : Nat) (us rest orig : List Char)
    (hus_ne : us ≠ []) (hus : allUnitChars us) (hmap : unitMap us = some unit)
    (hrest : headStopsUnit rest)
    (hbound : a * unit ≤ maxI) (hunit : 0 < unit) :
    durIter (decChars a ++ (us ++ rest)) orig = .ok (a * unit, rest) := by
  have ha_le : a ≤ maxI := by
    have := Nat.le_mul_of_pos_right a hunit
    omega
  obtain ⟨hval, hne, hdig⟩ := decChars_spec a ha_le
  have hnd : headNotDigit (us ++ rest) := headNotDigit_unit us rest hus hus_ne
  have hli : leadingInt 0 (decChars a ++ (us ++ rest)) = some (a, us ++ rest) := by
    have := leadingInt_digits (decChars a) 0 (us ++ rest) hdig hnd
      (by simpa [hval] using ha_le)
    simpa [hval] using this
  cases hd : decChars a with
  | nil => exact absurd hd hne
  | cons c cs =>
    have hc : isDigitChar c = true := hdig c (by rw [hd]; simp)
    rw [hd, List.cons_append] at hli
    unfold durIter
    simp only [List.cons_append]
    rw [if_neg (by simp [hc])]
    rw [hli]
    obtain ⟨u, us2, rfl⟩ : ∃ u us2, us = u :: us2 := by
      cases us with
      | nil => exact absurd rfl hus_ne
      | cons u us2 => exact ⟨u, us2, rfl⟩
    have hu : ¬(u = '.' ∨ isDigitChar u = true) := hus u (by simp)
    have hu_dot : u ≠ '.' := fun h => hu (Or.inl h)
    simp only [List.cons_append]
    have hfps : (match (u :: (us2 ++ rest) : List Char) with
        | '.' :: s2 =>
          ((leadingFraction s2).1, (leadingFraction s2).2.1, (leadingFraction s2).2.2,
            decide ((leadingFraction s2).2.2.length ≠ s2.length))
        | _ => ((0 : Nat), (0 : Nat), u :: (us2 ++ rest), false)) =
        ((0 : Nat), (0 : Nat), u :: (us2 ++ rest), false) := by
      split
      · next s2 heq =>
        injection heq with h1 _
        exact absurd h1 hu_dot
      · rfl
    rw [hfps]
    have hspan : spanUnit (u :: (us2 ++ rest)) = (u :: us2, rest) := by
      have := spanUnit_append (u :: us2) rest hus hrest
      simpa using this
    have hdiv : ¬a > maxI / unit := by
      rw [not_lt, Nat.le_div_iff_mul_le hunit]
      exact hbound
    dsimp only
    split
    · next hcond =>
      exfalso
      refine hcond.1 ?_
      simp only [decide_eq_true_eq]
      simp
      omega
    · rw [hspan]
      split
      · next hc2 => simp at hc2
      · rw [hmap]
        dsimp only
        rw [if_neg hdiv]
        simp


theorem headNotDigit_dot (t : List Char) : headNotDigit ('.' :: t) := by
  show isDigitChar '.' = false
  decide

theorem durIter_frac (a unit j : Nat) (fds us rest orig : List Char)
    (hus_ne : us ≠ []) (hus : allUnitChars us) (hmap : unitMap us = some unit)
    (hrest : headStopsUnit rest)
    (hfd : allDigits fds) (hfne : fds ≠ [])
    (hunitj : unit = 10 ^ fds.length * 10 ^ j)
    (hf0 : 0 < charsVal fds)
    (hbound : a * unit + charsVal fds * 10 ^ j ≤ maxI) :
    durIter (decChars a ++ ('.' :: (fds ++ (us ++ rest)))) orig =
      .ok (a * unit + charsVal fds * 10 ^ j, rest) := by
  have hunit : 0 < unit := by
    rw [hunitj]
    exact Nat.mul_pos (pow_pos (by norm_num) _) (pow_pos (by norm_num) _)
  have habound : a * unit ≤ maxI := by omega
  have ha_le : a ≤ maxI := by
    have := Nat.le_mul_of_pos_right a hunit
    omega
  have hfval_le : charsVal fds ≤ maxI := by
    have h1 : charsVal fds ≤ charsVal fds * 10 ^ j :=
      Nat.le_mul_of_pos_right _ (pow_pos (by norm_num) _)
    omega
  obtain ⟨hval, hne, hdig⟩ := decChars_spec a ha_le
  have hnd : headNotDigit (us ++ rest) := headNotDigit_unit us rest hus hus_ne
  have hli : leadingInt 0 (decChars a ++ ('.' :: (fds ++ (us ++ rest)))) =
      some (a, '.' :: (fds ++ (us ++ rest))) := by
    have := leadingInt_digits (decChars a) 0 ('.' :: (fds ++ (us ++ rest))) hdig
      (headNotDigit_dot _) (by simpa [hval] using ha_le)
    simpa [hval] using this
  have hlf : leadingFraction (fds ++ (us ++ rest)) =
      (charsVal fds, fds.length, us ++ rest) := by
    unfold leadingFraction
    have := leadingFractionCore_digits fds 0 0 (us ++ rest) hfd hnd
      (by simpa using hfval_le)
    simpa using this
  have hcontrib : charsVal fds * unit / 10 ^ fds.length = charsVal fds * 10 ^ j := by
    rw [hunitj]
    rw [show charsVal fds * (10 ^ fds.length * 10 ^ j) =
      charsVal fds * 10 ^ j * 10 ^ fds.length by ring]
    exact Nat.mul_div_cancel _ (pow_pos (by norm_num) _)
  have hspan : spanUnit (us ++ rest) = (us, rest) := spanUnit_append us rest hus hrest
  cases hd : decChars a with
  | nil => exact absurd hd hne
  | cons c cs =>
    have hc : isDigitChar c = true := hdig c (by rw [hd]; simp)
    rw [hd, List.cons_append] at hli
    unfold durIter
    simp only [List.cons_append]
    rw [if_neg (by simp [hc])]
    rw [hli]
    dsimp only
    have hfps : (match ('.' :: (fds ++ (us ++ rest)) : List Char) with
        | '.' :: s2 =>
          ((leadingFraction s2).1, (leadingFraction s2).2.1, (leadingFraction s2).2.2,
            decide ((leadingFraction s2).2.2.length ≠ s2.length))
        | _ => ((0 : Nat), (0 : Nat), '.' :: (fds ++ (us ++ rest)), false)) =
        (charsVal fds, fds.length, us ++ rest,
          decide ((us ++ rest).length ≠ (fds ++ (us ++ rest)).length)) := by
      split
      · next s2 heq =>
        injection heq with h1 h2
        subst h2
        rw [hlf]
      · next hno =>
        exact absurd rfl (hno (fds ++ (us ++ rest)))
    rw [hfps]
    have hpost : decide ((us ++ rest).length ≠ (fds ++ (us ++ rest)).length) = true := by
      simp only [decide_eq_true_eq, List.length_append]
      have := List.length_pos.mpr hfne
      omega
    rw [hpost]
    dsimp only
    split
    · next hcond =>
      exact absurd rfl hcond.2
    · rw [hspan]
      split
      · next hc2 => exact absurd hc2 hus_ne
      · rw [hmap]
        dsimp only
        simp only [gt_iff_lt]
        have hdiv2 : a ≤ maxI / unit := (Nat.le_div_iff_mul_le hunit).mpr habound
        rw [if_neg (Nat.not_lt.mpr hdiv2)]
        rw [hcontrib]
        rw [if_neg (by omega :
          ¬(0 < charsVal fds ∧ maxI < a * unit + charsVal fds * 10 ^ j))]

/-! ## Duration round-trip, part 6: the parse loop -/

/-- One successful step of the `for s != ""` loop: fuel decreases by
one, the component value joins the accumulator. -/
theorem parseDurationLoop_step (fuel d v : Nat) (s s4 orig : List Char)
    (hs : s ≠ []) (hit : durIter s orig = .ok (v, s4)) (hb : d + v ≤ maxI) :
    parseDurationLoop (fuel + 1) d s orig = parseDurationLoop fuel (d + v) s4 orig := by
  cases s with
  | nil => exact absurd rfl hs
  | cons c cs =>
    unfold parseDurationLoop
    rw [hit]
    dsimp only
    rw [if_neg (by omega : ¬d + v > maxI)]
    cases fuel with
    | zero => rfl
    | succ f => rfl

theorem parseDurationLoop_done (fuel d : Nat) (orig : List Char) :
    parseDurationLoop (fuel + 1) d [] orig = (d, none) := rfl

/-- One fractional-unit component as printed: `fmtInt a (fmtFrac u p us).1`
parses to `a * 10^p + u % 10^p` and consumes the whole string. -/
theorem durIter_fracComp (u p unit a : Nat) (us orig : List Char)
    (hus_ne : us ≠ []) (hus : allUnitChars us) (hmap : unitMap us = some unit)
    (hunit : unit = 10 ^ p)
    (hbound : a * unit + u % 10 ^ p ≤ maxI) :
    durIter (fmtInt a (fmtFrac u p us).1) orig =
      .ok (a * unit + u % 10 ^ p, []) := by
  rw [fmtFrac_spec]
  by_cases hz : u % 10 ^ p = 0
  · rw [if_neg (by simpa using hz)]
    rw [fmtInt_acc]
    have h1 := durIter_nofrac a unit us [] orig hus_ne hus hmap trivial
      (by omega) (by rw [hunit]; positivity)
    rw [List.append_nil] at h1
    rw [hz, Nat.add_zero, h1]
  · rw [if_pos (by simpa using hz)]
    rw [fmtInt_acc]
    obtain ⟨hfne, hfval⟩ := fracChars_val p u hz
    have hlen := fracChars_length_le p u
    have hunitj : unit = 10 ^ (fracChars p u).length * 10 ^ (p - (fracChars p u).length) := by
      rw [hunit, ← pow_add]
      congr 1
      omega
    have hf0 : 0 < charsVal (fracChars p u) := by
      rcases Nat.eq_zero_or_pos (charsVal (fracChars p u)) with h0 | h0
      · rw [h0, zero_mul] at hfval
        exact absurd hfval.symm hz
      · exact h0
    have h2 := durIter_frac a unit (p - (fracChars p u).length) (fracChars p u) us [] orig
      hus_ne hus hmap trivial (fracChars_digits p u) hfne hunitj hf0
      (by rw [hfval]; exact hbound)
    rw [List.append_nil, hfval] at h2
    exact h2

/-- The head of a printed number (followed by anything) stops a unit
scan: it is a digit. -/
theorem headStopsUnit_decChars (a : Nat) (t : List Char) (h : a ≤ maxI) :
    headStopsUnit (decChars a ++ t) := by
  obtain ⟨-, hne, hdig⟩ := decChars_spec a h
  cases hd : decChars a with
  | nil => exact absurd hd hne
  | cons c cs =>
    have hc : isDigitChar c = true := hdig c (by rw [hd]; simp)
    exact Or.inr hc

theorem parseDurationLoop_fin (fuel d : Nat) (orig : List Char) (h : 0 < fuel) :
    parseDurationLoop fuel d [] orig = (d, none) := by
  cases fuel with
  | zero => omega
  | succ f => rfl

/-- A single-component string parses to its component value. -/
theorem loop_single (s orig : List Char) (v : Nat)
    (hs : s ≠ []) (hit : durIter s orig = .ok (v, []))
    (hb : v ≤ maxI) :
    parseDurationLoop (s.length + 1) 0 s orig = (v, none) := by
  rw [parseDurationLoop_step s.length 0 v s [] orig hs hit (by omega)]
  rw [parseDurationLoop_fin s.length (0 + v) orig (List.length_pos.mpr hs)]
  simp

/-- A two-component string parses to the sum of its component values. -/
theorem loop_double (s s2 orig : List Char) (v1 v2 : Nat)
    (hs : s ≠ []) (hs2 : s2 ≠ [])
    (hit1 : durIter s orig = .ok (v1, s2))
    (hit2 : durIter s2 orig = .ok (v2, []))
    (hlen : s2.length + 1 ≤ s.length)
    (hb : v1 + v2 ≤ maxI) :
    parseDurationLoop (s.length + 1) 0 s orig = (v1 + v2, none) := by
  have h2 : 0 < s2.length := List.length_pos.mpr hs2
  rw [parseDurationLoop_step s.length 0 v1 s s2 orig hs hit1 (by omega)]
  rw [show s.length = (s.length - 1) + 1 from by omega]
  rw [parseDurationLoop_step (s.length - 1) (0 + v1) v2 s2 [] orig hs2 hit2 (by omega)]
  rw [parseDurationLoop_fin (s.length - 1) (0 + v1 + v2) orig (by omega)]
  simp

/-- A three-component string parses to the sum of its component values. -/
theorem loop_triple (s s2 s3 orig : List Char) (v1 v2 v3 : Nat)
    (hs : s ≠ []) (hs2 : s2 ≠ []) (hs3 : s3 ≠ [])
    (hit1 : durIter s orig = .ok (v1, s2))
    (hit2 : durIter s2 orig = .ok (v2, s3))
    (hit3 : durIter s3 orig = .ok (v3, []))
    (hlen1 : s2.length + 1 ≤ s.length) (hlen2 : s3.length + 1 ≤ s2.length)
    (hb : v1 + v2 + v3 ≤ maxI) :
    parseDurationLoop (s.length + 1) 0 s orig = (v1 + v2 + v3, none) := by
  have h2 : 0 < s2.length := List.length_pos.mpr hs2
  have h3 : 0 < s3.length := List.length_pos.mpr hs3
  rw [parseDurationLoop_step s.length 0 v1 s s2 orig hs hit1 (by omega)]
  rw [show s.length = (s.length - 1) + 1 from by omega]
  rw [parseDurationLoop_step (s.length - 1) (0 + v1) v2 s2 s3 orig hs2 hit2 (by omega)]
  rw [show s.length - 1 = (s.length - 2) + 1 from by omega]
  rw [parseDurationLoop_step (s.length - 2) (0 + v1 + v2) v3 s3 [] orig hs3 hit3 (by omega)]
  rw [parseDurationLoop_fin (s.length - 2) (0 + v1 + v2 + v3) orig (by omega)]
  simp

/-- The seconds component as printed by the `u ≥ 1e9` branch. -/
theorem durIter_secComp (u a : Nat) (orig : List Char)
    (hb : a * 1000000000 + u % 1000000000 ≤ maxI) :
    durIter (fmtInt a (fmtFrac u 9 ('s' :: [])).1) orig =
      .ok (a * 1000000000 + u % 1000000000, []) := by
  have h := durIter_fracComp u 9 1000000000 a ('s' :: []) orig (by decide)
    (by unfold allUnitChars; decide) (by decide) (by norm_num) (by norm_num; exact hb)
  norm_num at h
  exact h

theorem fmtInt_ne_nil (a : Nat) (acc : List Char) (h : a ≤ maxI) : fmtInt a acc ≠ [] := by
  rw [fmtInt_acc]
  obtain ⟨-, hne, -⟩ := decChars_spec a h
  cases hd : decChars a with
  | nil => exact absurd hd hne
  | cons c cs => simp

theorem core_ne_zeroStr (a : Nat) (t : List Char) (h : a ≤ maxI) (ht : t ≠ []) :
    decChars a ++ t ≠ gstr "0" := by
  intro hcontra
  have hlen := congrArg List.length hcontra
  obtain ⟨-, hne, -⟩ := decChars_spec a h
  have h1 : 0 < (decChars a).length := List.length_pos.mpr hne
  have h2 : 0 < t.length := List.length_pos.mpr ht
  simp only [List.length_append] at hlen
  rw [show (gstr "0").length = 1 from rfl] at hlen
  omega

theorem head_digit_core (a : Nat) (t : List Char) (h : a ≤ maxI) :
    ∃ c r, decChars a ++ t = c :: r ∧ isDigitChar c = true := by
  obtain ⟨-, hne, hdig⟩ := decChars_spec a h
  cases hd : decChars a with
  | nil => exact absurd hd hne
  | cons c cs => exact ⟨c, cs ++ t, by simp, hdig c (by rw [hd]; simp)⟩

theorem digit_not_sign (c : Char) (h : isDigitChar c = true) : ¬(c = '-' ∨ c = '+') := by
  rintro (rfl | rfl) <;> exact absurd h (by decide)

theorem stripSign_digit (c : Char) (t : List Char) (h : isDigitChar c = true) :
    stripSign (c :: t) = (false, c :: t) := by
  unfold stripSign
  dsimp only
  rw [if_neg (digit_not_sign c h)]

theorem stripSign_neg (core : List Char) : stripSign ('-' :: core) = (true, core) := by
  unfold stripSign
  dsimp only
  rw [if_pos (Or.inl rfl)]
  simp

/-- `parseDuration` on an unsigned well-formed component string reduces
to the loop value. -/
theorem parseDuration_core_pos (core : List Char) (u : Nat)
    (hhead : ∃ c t, core = c :: t ∧ isDigitChar c = true)
    (hne0 : core ≠ gstr "0")
    (hloop : ∀ orig, parseDurationLoop (core.length + 1) 0 core orig = (u, none)) :
    parseDuration core = ((u : Int), none) := by
  obtain ⟨c, t, hc, hd⟩ := hhead
  have hss : stripSign core = (false, core) := by rw [hc]; exact stripSign_digit c t hd
  have hne : core ≠ [] := by rw [hc]; simp
  unfold parseDuration
  dsimp only
  rw [hss]
  dsimp only
  rw [if_neg hne0, if_neg hne, hloop core]
  simp

theorem parseDuration_core_neg (core : List Char) (u : Nat)
    (hne : core ≠ [])
    (hne0 : core ≠ gstr "0")
    (hloop : ∀ orig, parseDurationLoop (core.length + 1) 0 core orig = (u, none)) :
    parseDuration ('-' :: core) = (-(u : Int), none) := by
  unfold parseDuration
  dsimp only
  rw [stripSign_neg core]
  dsimp only
  rw [if_neg hne0, if_neg hne, hloop ('-' :: core)]
  simp

/-- Signed assembly: rendering attaches `-` exactly when `n < 0`, and
`parseDuration` undoes it. -/
theorem parseDuration_signed (core : List Char) (n : Int) (u : Nat) (hu : u = n.natAbs)
    (hhead : ∃ c t, core = c :: t ∧ isDigitChar c = true)
    (hne0 : core ≠ gstr "0")
    (hloop : ∀ orig, parseDurationLoop (core.length + 1) 0 core orig = (u, none)) :
    parseDuration (if n < 0 then '-' :: core else core) = (n, none) := by
  have hne : core ≠ [] := by obtain ⟨c, t, hc, -⟩ := hhead; rw [hc]; simp
  by_cases hn : n < 0
  · rw [if_pos hn, parseDuration_core_neg core u hne hne0 hloop]
    have h2 : -(u : Int) = n := by omega
    rw [h2]
  · rw [if_neg hn, parseDuration_core_pos core u hhead hne0 hloop]
    have h2 : ((u : Nat) : Int) = n := by omega
    rw [h2]

/-- Every `int64` duration other than `math.MinInt64` round-trips
through `String` and `ParseDuration`. -/
theorem parseDuration_roundTrip (n : Int)
    (hlo : -(maxI : Int) ≤ n) (hhi : n ≤ (maxI : Int)) :
    parseDuration (durationString n) = (n, none) := by
  have hM : maxI = 9223372036854775807 := rfl
  have huM : n.natAbs ≤ maxI := by omega
  unfold durationString
  dsimp only
  by_cases hu9 : n.natAbs < 1000000000
  case pos =>
    rw [if_pos hu9]
    by_cases hu0 : n.natAbs = 0
    case pos =>
      rw [if_pos hu0]
      have hn0 : n = 0 := by omega
      subst hn0
      rfl
    case neg =>
      rw [if_neg hu0]
      by_cases hu3 : n.natAbs < 1000
      case pos =>
        rw [if_pos hu3]
        refine parseDuration_signed _ n n.natAbs rfl ?_ ?_ ?_
        · rw [fmtInt_acc]
          exact head_digit_core _ _ huM
        · rw [fmtInt_acc]
          exact core_ne_zeroStr _ _ huM (by simp)
        · intro orig
          rw [fmtInt_acc]
          have hit := durIter_nofrac n.natAbs 1 ('n' :: 's' :: []) [] orig (by decide)
            (by unfold allUnitChars; decide) (by decide) trivial (by omega) (by decide)
          rw [List.append_nil] at hit
          have hl := loop_single (decChars n.natAbs ++ ('n' :: 's' :: [])) orig
            (n.natAbs * 1) (by simp) hit (by omega)
          rw [hl]
          norm_num
      case neg =>
        rw [if_neg hu3]
        by_cases hu6 : n.natAbs < 1000000
        case pos =>
          rw [if_pos hu6]
          have hproj : (fmtFrac n.natAbs 3 ('µ' :: 's' :: [])).2 = n.natAbs / 1000 := by
            rw [fmtFrac_spec]
            norm_num
          have haM : (fmtFrac n.natAbs 3 ('µ' :: 's' :: [])).2 ≤ maxI := by
            rw [hproj]; omega
          have hr1 : (fmtFrac n.natAbs 3 ('µ' :: 's' :: [])).1 ≠ [] := by
            rw [fmtFrac_spec]
            dsimp only
            split <;> simp
          have hp3 : (10 : Nat) ^ 3 = 1000 := by norm_num
          refine parseDuration_signed _ n n.natAbs rfl ?_ ?_ ?_
          · rw [fmtInt_acc]
            exact head_digit_core _ _ haM
          · rw [fmtInt_acc]
            exact core_ne_zeroStr _ _ haM hr1
          · intro orig
            have hbnd : (fmtFrac n.natAbs 3 ('µ' :: 's' :: [])).2 * 1000 +
                n.natAbs % 10 ^ 3 ≤ maxI := by
              rw [hproj, hp3]; omega
            have hit := durIter_fracComp n.natAbs 3 1000
              ((fmtFrac n.natAbs 3 ('µ' :: 's' :: [])).2) ('µ' :: 's' :: []) orig
              (by decide) (by unfold allUnitChars; decide) (by decide) (by norm_num) hbnd
            have hl := loop_single _ orig _ (fmtInt_ne_nil _ _ haM) hit hbnd
            rw [hl]
            simp only [Prod.mk.injEq]
            refine ⟨?_, trivial⟩
            rw [hproj, hp3]
            omega
        case neg =>
          rw [if_neg hu6]
          have hproj : (fmtFrac n.natAbs 6 ('m' :: 's' :: [])).2 = n.natAbs / 1000000 := by
            rw [fmtFrac_spec]
            norm_num
          have haM : (fmtFrac n.natAbs 6 ('m' :: 's' :: [])).2 ≤ maxI := by
            rw [hproj]; omega
          have hr1 : (fmtFrac n.natAbs 6 ('m' :: 's' :: [])).1 ≠ [] := by
            rw [fmtFrac_spec]
            dsimp only
            split <;> simp
          have hp6 : (10 : Nat) ^ 6 = 1000000 := by norm_num
          refine parseDuration_signed _ n n.natAbs rfl ?_ ?_ ?_
          · rw [fmtInt_acc]
            exact head_digit_core _ _ haM
          · rw [fmtInt_acc]
            exact core_ne_zeroStr _ _ haM hr1
          · intro orig
            have hbnd : (fmtFrac n.natAbs 6 ('m' :: 's' :: [])).2 * 1000000 +
                n.natAbs % 10 ^ 6 ≤ maxI := by
              rw [hproj, hp6]; omega
            have hit := durIter_fracComp n.natAbs 6 1000000
              ((fmtFrac n.natAbs 6 ('m' :: 's' :: [])).2) ('m' :: 's' :: []) orig
              (by decide) (by unfold allUnitChars; decide) (by decide) (by norm_num) hbnd
            have hl := loop_single _ orig _ (fmtInt_ne_nil _ _ haM) hit hbnd
            rw [hl]
            simp only [Prod.mk.injEq]
            refine ⟨?_, trivial⟩
            rw [hproj, hp6]
            omega
  case neg =>
    rw [if_neg hu9]
    have hproj : (fmtFrac n.natAbs 9 ('s' :: [])).2 = n.natAbs / 1000000000 := by
      rw [fmtFrac_spec]
      norm_num
    have hr1 : (fmtFrac n.natAbs 9 ('s' :: [])).1 ≠ [] := by
      rw [fmtFrac_spec]
      dsimp only
      split <;> simp
    rw [hproj]
    by_cases hm0 : n.natAbs / 1000000000 / 60 = 0
    case pos =>
      rw [if_pos hm0]
      have haM : n.natAbs / 1000000000 % 60 ≤ maxI := by omega
      refine parseDuration_signed _ n n.natAbs rfl ?_ ?_ ?_
      · rw [fmtInt_acc]
        exact head_digit_core _ _ haM
      · rw [fmtInt_acc]
        exact core_ne_zeroStr _ _ haM hr1
      · intro orig
        have hbnd : n.natAbs / 1000000000 % 60 * 1000000000 +
            n.natAbs % 1000000000 ≤ maxI := by omega
        have hit := durIter_secComp n.natAbs (n.natAbs / 1000000000 % 60) orig hbnd
        have hl := loop_single _ orig _ (fmtInt_ne_nil _ _ haM) hit hbnd
        rw [hl]
        simp only [Prod.mk.injEq]
        refine ⟨?_, trivial⟩
        omega
    case neg =>
      rw [if_neg hm0]
      by_cases hh0 : n.natAbs / 1000000000 / 60 / 60 = 0
      case pos =>
        rw [if_pos hh0]
        have haM : n.natAbs / 1000000000 / 60 % 60 ≤ maxI := by omega
        have hsM : n.natAbs / 1000000000 % 60 ≤ maxI := by omega
        refine parseDuration_signed _ n n.natAbs rfl ?_ ?_ ?_
        · rw [fmtInt_acc]
          exact head_digit_core _ _ haM
        · rw [fmtInt_acc]
          exact core_ne_zeroStr _ _ haM (by simp)
        · intro orig
          have hsecbnd : n.natAbs / 1000000000 % 60 * 1000000000 +
              n.natAbs % 1000000000 ≤ maxI := by omega
          have hit2 := durIter_secComp n.natAbs (n.natAbs / 1000000000 % 60) orig hsecbnd
          rw [fmtInt_acc] at hit2
          have hstop : headStopsUnit
              (decChars (n.natAbs / 1000000000 % 60) ++ (fmtFrac n.natAbs 9 ('s' :: [])).1) :=
            headStopsUnit_decChars _ _ hsM
          have hit1 := durIter_nofrac (n.natAbs / 1000000000 / 60 % 60) 60000000000
            ('m' :: []) (decChars (n.natAbs / 1000000000 % 60) ++ (fmtFrac n.natAbs 9 ('s' :: [])).1)
            orig (by decide) (by unfold allUnitChars; decide) (by decide) hstop
            (by omega) (by decide)
          rw [List.singleton_append] at hit1
          simp only [fmtInt_acc]
          obtain ⟨-, hsne, -⟩ := decChars_spec (n.natAbs / 1000000000 % 60) hsM
          obtain ⟨-, hmne, -⟩ := decChars_spec (n.natAbs / 1000000000 / 60 % 60) haM
          have hl := loop_double _ _ orig _ _ (by simp) (by simp [hsne]) hit1 hit2
            (by simp only [List.length_append, List.length_cons]
                have := List.length_pos.mpr hmne
                omega)
            (by omega)
          rw [hl]
          simp only [Prod.mk.injEq]
          refine ⟨?_, trivial⟩
          omega
      case neg =>
        rw [if_neg hh0]
        have hhM : n.natAbs / 1000000000 / 60 / 60 ≤ maxI := by omega
        have haM : n.natAbs / 1000000000 / 60 % 60 ≤ maxI := by omega
        have hsM : n.natAbs / 1000000000 % 60 ≤ maxI := by omega
        refine parseDuration_signed _ n n.natAbs rfl ?_ ?_ ?_
        · rw [fmtInt_acc]
          exact head_digit_core _ _ hhM
        · rw [fmtInt_acc]
          exact core_ne_zeroStr _ _ hhM (by simp)
        · intro orig
          have hsecbnd : n.natAbs / 1000000000 % 60 * 1000000000 +
              n.natAbs % 1000000000 ≤ maxI := by omega
          have hit3 := durIter_secComp n.natAbs (n.natAbs / 1000000000 % 60) orig hsecbnd
          rw [fmtInt_acc] at hit3
          have hstop3 : headStopsUnit
              (decChars (n.natAbs / 1000000000 % 60) ++ (fmtFrac n.natAbs 9 ('s' :: [])).1) :=
            headStopsUnit_decChars _ _ hsM
          have hit2 := durIter_nofrac (n.natAbs / 1000000000 / 60 % 60) 60000000000
            ('m' :: []) (decChars (n.natAbs / 1000000000 % 60) ++ (fmtFrac n.natAbs 9 ('s' :: [])).1)
            orig (by decide) (by unfold allUnitChars; decide) (by decide) hstop3
            (by omega) (by decide)
          rw [List.singleton_append] at hit2
          have hstop2 : headStopsUnit
              (decChars (n.natAbs / 1000000000 / 60 % 60) ++
                ('m' :: (decChars (n.natAbs / 1000000000 % 60) ++ (fmtFrac n.natAbs 9 ('s' :: [])).1))) :=
            headStopsUnit_decChars _ _ haM
          have hit1 := durIter_nofrac (n.natAbs / 1000000000 / 60 / 60) 3600000000000
            ('h' :: [])
            (decChars (n.natAbs / 1000000000 / 60 % 60) ++
              ('m' :: (decChars (n.natAbs / 1000000000 % 60) ++ (fmtFrac n.natAbs 9 ('s' :: [])).1)))
            orig (by decide) (by unfold allUnitChars; decide) (by decide) hstop2
            (by omega) (by decide)
          rw [List.singleton_append] at hit1
          simp only [fmtInt_acc]
          obtain ⟨-, hsne, -⟩ := decChars_spec (n.natAbs / 1000000000 % 60) hsM
          obtain ⟨-, hmne, -⟩ := decChars_spec (n.natAbs / 1000000000 / 60 % 60) haM
          obtain ⟨-, hhne, -⟩ := decChars_spec (n.natAbs / 1000000000 / 60 / 60) hhM
          have hl := loop_triple _ _ _ orig _ _ _ (by simp) (by simp) (by simp [hsne])
            hit1 hit2 hit3
            (by simp only [List.length_append, List.length_cons]
                have := List.length_pos.mpr hhne
                omega)
            (by simp only [List.length_append, List.length_cons]
                have := List.length_pos.mpr hmne
                omega)
            (by omega)
          rw [hl]
          simp only [Prod.mk.injEq]
          refine ⟨?_, trivial⟩
          omega

/-! ## Duration round-trip, part 7: error shapes -/

/-- Every error of one loop iteration is one of the three messages of
the pre-1.15 `ParseDuration`. -/
theorem durIter_error_shapes (s orig e : List Char)
    (h : durIter s orig = .error e) :
    e = errInvalidDur orig ∨ e = errMissingUnit orig ∨
      ∃ u, e = errUnknownUnit u orig := by
  unfold durIter at h
  cases s with
  | nil =>
    injection h with h2
    exact Or.inl h2.symm
  | cons c cs =>
    dsimp only at h
    split at h
    · injection h with h2
      exact Or.inl h2.symm
    · split at h
      · injection h with h2
        exact Or.inl h2.symm
      · next v0 s1 hli =>
        try dsimp only at h
        rcases s1 with _ | ⟨c1, s2⟩
        · try dsimp only at h
          split at h
          · injection h with h2
            exact Or.inl h2.symm
          · split at h
            · injection h with h2
              exact Or.inr (Or.inl h2.symm)
            · split at h
              · injection h with h2
                exact Or.inr (Or.inr ⟨_, h2.symm⟩)
              · split at h
                · injection h with h2
                  exact Or.inl h2.symm
                · split at h
                  · split at h
                    · injection h with h2
                      exact Or.inl h2.symm
                    · simp at h
                  · split at h
                    · injection h with h2
                      exact Or.inl h2.symm
                    · simp at h
        · by_cases hc1 : c1 = '.'
          · subst hc1
            have hm : (match ('.' :: s2 : List Char) with
                | '.' :: s2 =>
                  ((leadingFraction s2).1, (leadingFraction s2).2.1, (leadingFraction s2).2.2,
                    decide ((leadingFraction s2).2.2.length ≠ s2.length))
                | _ => ((0 : Nat), (0 : Nat), '.' :: s2, false)) =
                ((leadingFraction s2).1, (leadingFraction s2).2.1, (leadingFraction s2).2.2,
                  decide ((leadingFraction s2).2.2.length ≠ s2.length)) := by
              split
              · next s2' heq =>
                injection heq with h1 h2
                subst h2
                rfl
              · next hno => exact absurd rfl (hno s2)
            rw [hm] at h
            dsimp only at h
            split at h
            · injection h with h2
              exact Or.inl h2.symm
            · split at h
              · injection h with h2
                exact Or.inr (Or.inl h2.symm)
              · split at h
                · injection h with h2
                  exact Or.inr (Or.inr ⟨_, h2.symm⟩)
                · split at h
                  · injection h with h2
                    exact Or.inl h2.symm
                  · split at h
                    · split at h
                      · injection h with h2
                        exact Or.inl h2.symm
                      · simp at h
                    · split at h
                      · injection h with h2
                        exact Or.inl h2.symm
                      · simp at h
          · have hm : (match (c1 :: s2 : List Char) with
                | '.' :: s2 =>
                  ((leadingFraction s2).1, (leadingFraction s2).2.1, (leadingFraction s2).2.2,
                    decide ((leadingFraction s2).2.2.length ≠ s2.length))
                | _ => ((0 : Nat), (0 : Nat), c1 :: s2, false)) =
                ((0 : Nat), (0 : Nat), c1 :: s2, false) := by
              split
              · next s2' heq =>
                injection heq with h1 h2
                exact absurd h1 hc1
              · rfl
            rw [hm] at h
            dsimp only at h
            split at h
            · injection h with h2
              exact Or.inl h2.symm
            · split at h
              · injection h with h2
                exact Or.inr (Or.inl h2.symm)
              · split at h
                · injection h with h2
                  exact Or.inr (Or.inr ⟨_, h2.symm⟩)
                · split at h
                  · injection h with h2
                    exact Or.inl h2.symm
                  · split at h
                    · split at h
                      · injection h with h2
                        exact Or.inl h2.symm
                      · simp at h
                    · split at h
                      · injection h with h2
                        exact Or.inl h2.symm
                      · simp at h

theorem parseDurationLoop_error_shapes :
    ∀ fuel d (s orig e : List Char), (parseDurationLoop fuel d s orig).2 = some e →
      e = errInvalidDur orig ∨ e = errMissingUnit orig ∨
        ∃ u, e = errUnknownUnit u orig := by
  intro fuel
  induction fuel with
  | zero =>
    intro d s orig e h
    have h2 : errInvalidDur orig = e := by simpa [parseDurationLoop] using h
    exact Or.inl h2.symm
  | succ f ih =>
    intro d s orig e h
    unfold parseDurationLoop at h
    cases s with
    | nil => simp at h
    | cons c cs =>
      dsimp only at h
      split at h
      · next e2 heqd =>
        have h2 : e2 = e := by simpa using h
        subst h2
        exact durIter_error_shapes _ _ _ heqd
      · next v s4 heqd =>
        try dsimp only at h
        split at h
        · have h2 : errInvalidDur orig = e := by simpa using h
          exact Or.inl h2.symm
        · exact ih _ _ _ _ h

/-- Every parse failure of `ParseDuration` carries one of its three
message shapes over the original input. -/
theorem parseDuration_error_shapes (s e : GoStr)
    (h : (parseDuration s).2 = some e) :
    e = errInvalidDur s ∨ e = errMissingUnit s ∨ ∃ u, e = errUnknownUnit u s := by
  unfold parseDuration at h
  dsimp only at h
  split at h
  · simp at h
  · split at h
    · have h2 : errInvalidDur s = e := by simpa using h
      exact Or.inl h2.symm
    · split at h
      · next x e2 heq =>
        have h2 : e2 = e := by simpa using h
        subst h2
        exact parseDurationLoop_error_shapes _ _ _ _ _ (by rw [heq])
      · simp at h

/-- C7 (corrected range): every nanosecond count in
`[-(2^63-1), 2^63-1]` survives `durationString` followed by
`parseDuration` unchanged, and every parse failure reports one of the
three `time:` message shapes (`invalid duration`, `missing unit`,
`unknown unit`) over the original input — not always `invalid
duration`. -/
theorem claim_C7 (n : Int) (hlo : -(maxI : Int) ≤ n) (hhi : n ≤ (maxI : Int))
    (s e : GoStr) (he : (parseDuration s).2 = some e) :
    parseDuration (durationString n) = (n, none) ∧
      (e = errInvalidDur s ∨ e = errMissingUnit s ∨ ∃ u, e = errUnknownUnit u s) :=
  ⟨parseDuration_roundTrip n hlo hhi, parseDuration_error_shapes s e he⟩

/-- C7 witness: the bounds and the failing-parse hypothesis hold at
`n = -1234567` (rendered `-1.234567ms`) and `s = "1x"`, and the claim
instantiates there. -/
theorem claim_C7_witness :
    (-(maxI : Int) ≤ -1234567 ∧ ((-1234567 : Int) ≤ (maxI : Int)) ∧
        (parseDuration (gstr "1x")).2 = some (errUnknownUnit (gstr "x") (gstr "1x"))) ∧
      (parseDuration (durationString (-1234567)) = (-1234567, none) ∧
        (errUnknownUnit (gstr "x") (gstr "1x") = errInvalidDur (gstr "1x") ∨
          errUnknownUnit (gstr "x") (gstr "1x") = errMissingUnit (gstr "1x") ∨
          ∃ u, errUnknownUnit (gstr "x") (gstr "1x") = errUnknownUnit u (gstr "1x"))) :=
  ⟨⟨by decide, by decide, by decide⟩,
    claim_C7 (-1234567) (by decide) (by decide) (gstr "1x")
      (errUnknownUnit (gstr "x") (gstr "1x")) (by decide)⟩

/-- C7 counterexample to the literal claim: `math.MinInt64` renders to
`-2562047h47m16.854775808s`, whose parse overflows and fails, so that
duration does not round-trip; and the malformed text `5` fails with the
`missing unit` message, which is not the `invalid duration` message. -/
theorem claim_C7_counterexample :
    durationString (-9223372036854775808) = gstr "-2562047h47m16.854775808s" ∧
    parseDuration (gstr "-2562047h47m16.854775808s") =
      (0, some (errInvalidDur (gstr "-2562047h47m16.854775808s"))) ∧
    parseDuration (gstr "5") = (0, some (errMissingUnit (gstr "5"))) ∧
    decide (errMissingUnit (gstr "5") = errInvalidDur (gstr "5")) = false :=
  ⟨by decide, by decide, by decide, by decide⟩

/-! ## The walk as a fold over its leaf list -/

theorem runParserList_append {St : Type} (p : Parser St) (l1 l2 : List LeafInfo) :
    ∀ st, runParserList p (l1 ++ l2) st =
      match runParserList p l1 st with
      | (st2, some e) => (st2, some e)
      | (st2, none) => runParserList p l2 st2 := by
  induction l1 with
  | nil => intro st; rfl
  | cons x xs ih =>
    intro st
    simp only [List.cons_append, runParserList]
    split
    · rfl
    · exact ih _

/-- `parseStruct`'s field loop equals the fold of the per-field parser
over the flattened leaf list. -/
theorem walkFields_eq_run {St : Type} (p : Parser St) (tag : CfgTag) (f : Fields) :
    ∀ parents addr st,
      walkFields p tag parents addr f st =
        runParserList p (leavesOf tag parents addr f) st := by
  induction f with
  | fnil => intro _ _ _; rfl
  | fleaf n tg k r ih =>
    intro parents addr st
    simp only [walkFields, leavesOf]
    split
    · exact ih parents addr st
    · simp only [runParserList]
      split
      · rfl
      · exact ih parents addr _
  | fsub n tg body r ihb ihr =>
    intro parents addr st
    simp only [walkFields, leavesOf]
    split
    · exact ihr parents addr st
    · rw [runParserList_append, ← ihb]
      split
      · rfl
      · exact ihr parents addr _

theorem parseStructGo_eq_run {St : Type} (p : Parser St) (tag : CfgTag)
    (root : Fields) (st : St) :
    parseStructGo p tag root st = runParserList p (leavesOf tag [] [] root) st :=
  walkFields_eq_run p tag root [] [] st

/-! ## The environment pass as a state transformer -/

/-- `envDecoder` at one leaf whose variable (if set) parses: the write
`envApplyLeaf` describes, and no error. -/
theorem envDecoder_leaf (pfx : GoStr) (env : Env) (path : List GoStr) (addr : Addr)
    (k : Kind) (tags : GoTags) (σ : State)
    (hok : envLeafOk pfx env ⟨path, addr, k, tags⟩ = true) :
    envDecoder pfx env path addr k tags σ =
      (envApplyLeaf pfx env ⟨path, addr, k, tags⟩ σ, none) := by
  unfold envLeafOk at hok
  unfold envDecoder envApplyLeaf
  dsimp only at hok ⊢
  cases henv : env (getEnvKey pfx path) with
  | none => rfl
  | some val =>
    rw [henv] at hok
    dsimp only at hok
    cases k with
    | kstr => simp [envLeafVal]
    | kbool =>
      cases hp : parseBoolGo val with
      | error e => simp [envLeafVal, hp] at hok
      | ok b => simp [envLeafVal, hp]
    | kdur =>
      cases hp : (parseDuration val).2 with
      | some e => simp [envLeafVal, hp] at hok
      | none => simp [envLeafVal, hp]
    | kint =>
      cases hp : parseIntGo 10 val with
      | none => simp [envLeafVal, hp] at hok
      | some n => simp [envLeafVal, hp]
    | kint64 =>
      cases hp : parseIntGo 10 val with
      | none => simp [envLeafVal, hp] at hok
      | some n => simp [envLeafVal, hp]
    | kuint =>
      cases hp : parseUintGo 10 val with
      | none => simp [envLeafVal, hp] at hok
      | some n => simp [envLeafVal, hp]
    | kuint64 =>
      cases hp : parseUintGo 10 val with
      | none => simp [envLeafVal, hp] at hok
      | some n => simp [envLeafVal, hp]
    | kfloat64 =>
      cases hp : parseFloatGo val with
      | none => simp [envLeafVal, hp] at hok
      | some x => simp [envLeafVal, hp]

/-- The environment pass over a leaf list, when every set variable
parses, writes `envApplyAll` and reports no error. -/
theorem runParser_env (pfx : GoStr) (env : Env) (ls : List LeafInfo) :
    ∀ σ, (∀ ℓ ∈ ls, envLeafOk pfx env ℓ = true) →
      runParserList (envDecoder pfx env) ls σ = (envApplyAll pfx env ls σ, none) := by
  induction ls with
  | nil => intro σ _; rfl
  | cons x xs ih =>
    intro σ hok
    have hx := hok x (List.mem_cons_self x xs)
    simp only [runParserList]
    obtain ⟨p, a, k, t⟩ := x
    rw [envDecoder_leaf pfx env p a k t σ hx]
    dsimp only
    rw [ih _ fun ℓ hℓ => hok ℓ (List.mem_cons_of_mem _ hℓ)]
    simp only [envApplyAll, List.foldl_cons]

theorem envApplyLeaf_other (pfx : GoStr) (env : Env) (x : LeafInfo) (σ : State)
    (a : Addr) (h : x.addr ≠ a) : envApplyLeaf pfx env x σ a = σ a := by
  unfold envApplyLeaf
  cases henv : env (getEnvKey pfx x.path) with
  | none => rfl
  | some val =>
    dsimp only
    cases hv : envLeafVal x.kind val with
    | none => rfl
    | some gv =>
      unfold updState
      dsimp only
      rw [if_neg (show ¬a = x.addr from fun hh => h hh.symm)]

theorem envApplyAll_frame (pfx : GoStr) (env : Env) (ls : List LeafInfo) :
    ∀ (σ : State) (a : Addr), (∀ x ∈ ls, x.addr ≠ a) →
      envApplyAll pfx env ls σ a = σ a := by
  induction ls with
  | nil => intro σ a _; rfl
  | cons x xs ih =>
    intro σ a h
    have h1 : envApplyAll pfx env (x :: xs) σ =
        envApplyAll pfx env xs (envApplyLeaf pfx env x σ) := by
      simp only [envApplyAll, List.foldl_cons]
    rw [h1, ih _ a fun y hy => h y (List.mem_cons_of_mem _ hy)]
    exact envApplyLeaf_other pfx env x σ a (h x (List.mem_cons_self x xs))

/-- Value of the environment pass at the address of a visited leaf,
when visited-leaf addresses are distinct: its own variable decides. -/
theorem envApplyAll_point (pfx : GoStr) (env : Env) (ls : List LeafInfo) :
    ∀ (σ : State) (a : Addr) (ℓ : LeafInfo), ℓ ∈ ls → ℓ.addr = a →
      ((ls.map fun x => x.addr).Nodup) →
      envApplyAll pfx env ls σ a =
        (match env (getEnvKey pfx ℓ.path) with
         | none => σ a
         | some val =>
           match envLeafVal ℓ.kind val with
           | some gv => gv
           | none => σ a) := by
  induction ls with
  | nil => intro _ _ _ hm; exact absurd hm (by simp)
  | cons x xs ih =>
    intro σ a ℓ hmem haddr hnd
    simp only [List.map_cons, List.nodup_cons] at hnd
    rcases List.mem_cons.mp hmem with heq | htail
    · subst heq
      have hrest : ∀ y ∈ xs, y.addr ≠ a := by
        intro y hy hc
        apply hnd.1
        rw [haddr, ← hc]
        exact List.mem_map_of_mem _ hy
      have h1 : envApplyAll pfx env (ℓ :: xs) σ =
          envApplyAll pfx env xs (envApplyLeaf pfx env ℓ σ) := by
        simp only [envApplyAll, List.foldl_cons]
      rw [h1, envApplyAll_frame pfx env xs _ a hrest]
      unfold envApplyLeaf
      cases henv : env (getEnvKey pfx ℓ.path) with
      | none => rfl
      | some val =>
        dsimp only
        cases hv : envLeafVal ℓ.kind val with
        | none => rfl
        | some gv =>
          unfold updState
          dsimp only
          rw [if_pos (show a = ℓ.addr from haddr.symm)]
    · have hxa : x.addr ≠ a := by
        intro hc
        apply hnd.1
        rw [hc, ← haddr]
        exact List.mem_map_of_mem _ htail
      have h1 : envApplyAll pfx env (x :: xs) σ =
          envApplyAll pfx env xs (envApplyLeaf pfx env x σ) := by
        simp only [envApplyAll, List.foldl_cons]
      rw [h1, ih (envApplyLeaf pfx env x σ) a ℓ htail haddr hnd.2]
      rw [envApplyLeaf_other pfx env x σ a hxa]

/-! ## The registration pass as list building -/

/-- The registration pass over a leaf list with distinct names appends
one registration per leaf, leaves the storage unchanged, and reports no
error. -/
theorem runParser_flagBuilder (ls : List LeafInfo) :
    ∀ (σ : State) (regs : List FlagReg),
      ((regs ++ ls.map mkFlagReg).map fun q => q.name).Nodup →
      runParserList flagBuilder ls (σ, regs) =
        ((σ, regs ++ ls.map mkFlagReg), none) := by
  induction ls with
  | nil => intro σ regs _; simp [runParserList]
  | cons ℓ ls ih =>
    intro σ regs hnd
    have hnotin : (regs.any fun q => decide (q.name = joinStr (gstr "-") ℓ.path)) = false := by
      rw [List.any_eq_false]
      intro q hq
      simp only [decide_eq_true_eq]
      intro hqe
      simp only [List.map_append, List.map_cons] at hnd
      rw [List.nodup_append] at hnd
      apply hnd.2.2 (List.mem_map_of_mem _ hq)
      rw [hqe]
      exact List.mem_cons_self _ _
    simp only [runParserList, flagBuilder, registerFlag]
    rw [if_neg (show ¬((regs.any fun q =>
        decide (q.name = joinStr (gstr "-") ℓ.path)) = true) from by rw [hnotin]; simp)]
    dsimp only
    rw [updState_self]
    have hnd2 : (((regs ++ [mkFlagReg ℓ]) ++ ls.map mkFlagReg).map fun q => q.name).Nodup := by
      rw [List.append_assoc]
      simpa using hnd
    have := ih σ (regs ++ [mkFlagReg ℓ]) hnd2
    rw [show (⟨joinStr (gstr "-") ℓ.path, some (ℓ.addr, ℓ.kind)⟩ : FlagReg) = mkFlagReg ℓ
      from rfl]
    rw [this]
    simp [List.append_assoc]

/-! ## Flag parsing over canonical argument tokens -/

/-- The canonical token of one assignment. -/
theorem render_token_shape (k v : GoStr) :
    gstr "-" ++ k ++ gstr "=" ++ v = '-' :: (k ++ '=' :: v) := by
  rw [show (gstr "-") = ['-'] from rfl, show (gstr "=") = ['='] from rfl]
  simp

theorem splitFirstEq_cons_ne (c : Char) (t : GoStr) (hc : c ≠ '=') :
    splitFirstEq (c :: t) =
      (c :: (splitFirstEq t).1, (splitFirstEq t).2.1, (splitFirstEq t).2.2) := by
  nth_rewrite 1 [splitFirstEq.eq_def]
  split
  · next heq => exact absurd heq (by simp)
  · next rest heq =>
    injection heq with h1 h2
    exact absurd h1 hc
  · next c2 rest2 h2 heq =>
    injection heq with ha hb
    subst ha
    subst hb
    rfl

theorem splitFirstEq_no_eq (key : GoStr) (value : GoStr) : ('=' ∉ key) →
    splitFirstEq (key ++ '=' :: value) = (key, value, true) := by
  induction key with
  | nil => intro _; rfl
  | cons c cs ih =>
    intro h
    have hc : c ≠ '=' := fun hh => h (hh ▸ List.mem_cons_self c cs)
    rw [List.cons_append, splitFirstEq_cons_ne c _ hc,
      ih fun hm => h (List.mem_cons_of_mem _ hm)]

/-- `flag.Value.Set` through a registration whose value parses: the
write `flagLeafVal` describes. -/
theorem flagValueSet_char (σ : State) (r : FlagReg) (v : GoStr)
    (hok : ∀ a k, r.target = some (a, k) → flagLeafVal k v ≠ none) :
    flagValueSet σ r v = .ok (flagWrite r v σ) := by
  unfold flagWrite
  cases ht : r.target with
  | none => simp [flagValueSet, ht]
  | some p =>
    obtain ⟨a, k⟩ := p
    have hok2 := hok a k ht
    cases k with
    | kstr => simp [flagValueSet, flagLeafVal, ht]
    | kbool =>
      cases hp : parseBoolGo v with
      | error e => simp [flagLeafVal, hp] at hok2
      | ok b => simp [flagValueSet, flagLeafVal, ht, hp]
    | kdur =>
      cases hp : (parseDuration v).2 with
      | some e => simp [flagLeafVal, hp] at hok2
      | none => simp [flagValueSet, flagLeafVal, ht, hp]
    | kint =>
      cases hp : parseIntGo 0 v with
      | none => simp [flagLeafVal, hp] at hok2
      | some n => simp [flagValueSet, flagLeafVal, ht, hp]
    | kint64 =>
      cases hp : parseIntGo 0 v with
      | none => simp [flagLeafVal, hp] at hok2
      | some n => simp [flagValueSet, flagLeafVal, ht, hp]
    | kuint =>
      cases hp : parseUintGo 0 v with
      | none => simp [flagLeafVal, hp] at hok2
      | some n => simp [flagValueSet, flagLeafVal, ht, hp]
    | kuint64 =>
      cases hp : parseUintGo 0 v with
      | none => simp [flagLeafVal, hp] at hok2
      | some n => simp [flagValueSet, flagLeafVal, ht, hp]
    | kfloat64 =>
      cases hp : parseFloatGo v with
      | none => simp [flagLeafVal, hp] at hok2
      | some x => simp [flagValueSet, flagLeafVal, ht, hp]

theorem wfFlagKey_parts (k : GoStr) (h : wfFlagKey k = true) :
    k ≠ [] ∧ k.head? ≠ some '-' ∧ '=' ∉ k := by
  unfold wfFlagKey at h
  simp only [Bool.and_eq_true, decide_eq_true_eq, Bool.not_eq_true'] at h
  refine ⟨h.1.1, h.1.2, ?_⟩
  intro hm
  have h2 : '=' ∉ k := by simpa using h.2
  exact h2 hm

/-- `parseOne` on a canonical `-key=value` token whose key is
registered and whose value parses: consume it, write the value. -/
theorem parseOne_renderStep (regs : List FlagReg) (σ σ2 : State) (key value : GoStr)
    (rest : List GoStr) (r : FlagReg)
    (hk : wfFlagKey key = true)
    (hr : lookupFlag regs key = some r)
    (hset : flagValueSet σ r value = .ok σ2) :
    parseOne regs σ (('-' :: (key ++ '=' :: value)) :: rest) = .ok (some (σ2, rest)) := by
  obtain ⟨hne, hhd, hmem⟩ := wfFlagKey_parts key hk
  rcases key with _ | ⟨c, kt⟩
  · exact absurd rfl hne
  · have hcd : c ≠ '-' := by
      intro hcc
      exact hhd (by rw [hcc]; rfl)
    have hce : c ≠ '=' := fun hcc => hmem (hcc ▸ List.mem_cons_self c kt)
    unfold parseOne
    dsimp only
    simp only [List.cons_append]
    rw [if_neg (by simp : ¬((c :: (kt ++ '=' :: value) : GoStr) = []))]
    have hnm : (match (c :: (kt ++ '=' :: value) : List Char) with
        | '-' :: s2 => ((s2 : GoStr), true)
        | _ => ((c :: (kt ++ '=' :: value) : GoStr), false)) =
        ((c :: (kt ++ '=' :: value) : GoStr), false) := by
      split
      · next s2 heq =>
        injection heq with h1 h2
        exact absurd h1 hcd
      · rfl
    rw [hnm]
    dsimp only
    rw [if_neg (by simp : ¬(false = true ∧ (c :: (kt ++ '=' :: value) : GoStr) = []))]
    rw [if_neg (by
      simp only [List.head?_cons]
      push_neg
      refine ⟨by simp, ?_, ?_⟩
      · intro hcc
        injection hcc with hcc2
        exact hcd hcc2
      · intro hcc
        injection hcc with hcc2
        exact hce hcc2)]
    have hsp : splitFirstEq (c :: (kt ++ '=' :: value)) = (c :: kt, value, true) := by
      rw [← List.cons_append]
      exact splitFirstEq_no_eq (c :: kt) value hmem
    rw [hsp]
    dsimp only
    rw [hr]
    dsimp only
    by_cases hb : isBoolFlag r = true
    · rw [if_pos hb]
      rw [show (if (true : Bool) = true then value else gstr "true") = value from rfl]
      rw [hset]
    · rw [if_neg hb]
      rw [hset]

/-- The flag-parse loop over canonical tokens with registered keys and
parseable values applies the assignments left to right. -/
theorem flagParseLoop_render (asgn : List (GoStr × GoStr)) :
    ∀ (regs : List FlagReg) (σ : State),
      (∀ kv ∈ asgn, wfFlagKey kv.1 = true) →
      (∀ kv ∈ asgn, ∃ r, lookupFlag regs kv.1 = some r ∧
        ∀ a k, r.target = some (a, k) → flagLeafVal k kv.2 ≠ none) →
      flagParseLoop (asgn.length + 1) regs σ (renderArgs asgn) =
        (applyAsgn regs σ asgn, none) := by
  induction asgn with
  | nil => intro regs σ _ _; rfl
  | cons kv rest ih =>
    intro regs σ hwf hlk
    obtain ⟨r, hr, hok⟩ := hlk kv (List.mem_cons_self _ _)
    have hset := flagValueSet_char σ r kv.2 hok
    have hrend : renderArgs (kv :: rest) =
        ('-' :: (kv.1 ++ '=' :: kv.2)) :: renderArgs rest := by
      simp only [renderArgs, List.map_cons]
      rw [render_token_shape]
    rw [hrend]
    simp only [List.length_cons]
    unfold flagParseLoop
    rw [parseOne_renderStep regs σ (flagWrite r kv.2 σ) kv.1 kv.2 (renderArgs rest) r
      (hwf kv (List.mem_cons_self _ _)) hr hset]
    dsimp only
    rw [ih regs (flagWrite r kv.2 σ)
      (fun kv2 h2 => hwf kv2 (List.mem_cons_of_mem _ h2))
      (fun kv2 h2 => hlk kv2 (List.mem_cons_of_mem _ h2))]
    have happ : applyAsgn regs σ (kv :: rest) = applyAsgn regs (flagWrite r kv.2 σ) rest := by
      simp only [applyAsgn, List.foldl_cons]
      rw [hr]
      dsimp only
      rw [hset]
    rw [happ]

/-- `FlagSet.Parse` on canonical tokens. -/
theorem flagParse_render (regs : List FlagReg) (σ : State) (asgn : List (GoStr × GoStr))
    (hwf : ∀ kv ∈ asgn, wfFlagKey kv.1 = true)
    (hlk : ∀ kv ∈ asgn, ∃ r, lookupFlag regs kv.1 = some r ∧
      ∀ a k, r.target = some (a, k) → flagLeafVal k kv.2 ≠ none) :
    flagParse regs σ (renderArgs asgn) = (applyAsgn regs σ asgn, none) := by
  unfold flagParse
  rw [show (renderArgs asgn).length = asgn.length from by simp [renderArgs]]
  exact flagParseLoop_render asgn regs σ hwf hlk

/-- With no designated config-file flag, the scan over canonical
tokens finds nothing (every token's flag part is longer than `-`). -/
theorem parseConfigFlagLoop_render (asgn : List (GoStr × GoStr)) :
    ∀ (osArgsLen i : Nat), (∀ kv ∈ asgn, wfFlagKey kv.1 = true) →
      parseConfigFlagLoop ['-'] osArgsLen i (renderArgs asgn) = some [] := by
  induction asgn with
  | nil => intro _ _ _; rfl
  | cons kv rest ih =>
    intro osArgsLen i hwf
    obtain ⟨hne, -, hmem⟩ := wfFlagKey_parts kv.1 (hwf kv (List.mem_cons_self _ _))
    have hrend : renderArgs (kv :: rest) =
        ('-' :: (kv.1 ++ '=' :: kv.2)) :: renderArgs rest := by
      simp only [renderArgs, List.map_cons]
      rw [render_token_shape]
    rw [hrend]
    unfold parseConfigFlagLoop
    rw [if_neg (by
      intro hcc
      have h1 := hcc.1
      injection h1 with h2 h3
      exact hne (List.append_eq_nil.mp h3).1)]
    dsimp only
    rw [splitFirstEq_cons_ne '-' _ (by decide),
      splitFirstEq_no_eq kv.1 kv.2 hmem]
    dsimp only
    rw [if_neg (by
      intro hcc
      have h1 := hcc.1
      injection h1 with h2 h3
      exact hne h3)]
    exact ih osArgsLen (i + 1) fun kv2 h2 => hwf kv2 (List.mem_cons_of_mem _ h2)

theorem parseConfigFlag_render (osArgsLen : Nat) (asgn : List (GoStr × GoStr))
    (hwf : ∀ kv ∈ asgn, wfFlagKey kv.1 = true) :
    parseConfigFlag [] osArgsLen (renderArgs asgn) = some [] := by
  unfold parseConfigFlag
  rw [show (gstr "-" ++ ([] : GoStr)) = ['-'] from rfl]
  exact parseConfigFlagLoop_render asgn osArgsLen 0 hwf

/-- C1: one resolution session applies the four mutation passes in the
fixed order registration / config file / environment / flags: on a
session where every pass succeeds, the final state is the flag
assignments applied over the environment pass applied over the decoded
document applied over the caller-set defaults.  Consequently a leaf
supplied as an explicit flag resolves to the flag value (even when the
environment and the document also supply it), a leaf supplied by the
environment and the document resolves to the environment value, a leaf
supplied only by the document resolves to the document value, and a
leaf supplied by no source keeps its default. -/
theorem claim_C1 (gf : Gofig) (root : Fields) (σ0 : State) (fs : FS) (env : Env)
    (osArgsLen : Nat) (fname : GoStr) (doc : Doc) (key val sE : GoStr)
    (r : FlagReg) (kF : Kind) (aF aE aC aD : Addr) (ℓE ℓC ℓD : LeafInfo)
    (gvA gvE vC : GoVal)
    (hcf : gf.cfgFlag = none)
    (hreg : ((initRegs gf ++ (leavesOf .flag [] [] root).map mkFlagReg).map
      fun q => q.name).Nodup)
    (hfile : probeFiles fs gf.cfgFiles = .found fname (.ok doc))
    (hext : filepathExt fname = gstr ".json" ∨ filepathExt fname = gstr ".toml" ∨
      filepathExt fname = gstr ".yaml")
    (henvok : ∀ ℓ ∈ leavesOf .env [] [] root, envLeafOk gf.envPfx env ℓ = true)
    (henvnd : ((leavesOf .env [] [] root).map fun x => x.addr).Nodup)
    (hkey : wfFlagKey key = true)
    (hlook : lookupFlag (initRegs gf ++ (leavesOf .flag [] [] root).map mkFlagReg) key =
      some r)
    (htgt : r.target = some (aF, kF))
    (hvalA : flagLeafVal kF val = some gvA)
    (hE : ℓE ∈ leavesOf .env [] [] root) (hEaddr : ℓE.addr = aE)
    (hEenv : env (getEnvKey gf.envPfx ℓE.path) = some sE)
    (hEval : envLeafVal ℓE.kind sE = some gvE) (hEne : aE ≠ aF)
    (hC : ℓC ∈ leavesOf .env [] [] root) (hCaddr : ℓC.addr = aC)
    (hCenv : env (getEnvKey gf.envPfx ℓC.path) = none)
    (hCdoc : doc aC = some vC) (hCne : aC ≠ aF)
    (hD : ℓD ∈ leavesOf .env [] [] root) (hDaddr : ℓD.addr = aD)
    (hDenv : env (getEnvKey gf.envPfx ℓD.path) = none)
    (hDdoc : doc aD = none) (hDne : aD ≠ aF) :
    gofigParse gf root σ0 fs env osArgsLen (renderArgs [(key, val)]) =
      (updState (envApplyAll gf.envPfx env (leavesOf .env [] [] root)
        (applyDoc doc σ0)) aF gvA, none) ∧
    (gofigParse gf root σ0 fs env osArgsLen (renderArgs [(key, val)])).1 aF = gvA ∧
    (gofigParse gf root σ0 fs env osArgsLen (renderArgs [(key, val)])).1 aE = gvE ∧
    (gofigParse gf root σ0 fs env osArgsLen (renderArgs [(key, val)])).1 aC = vC ∧
    (gofigParse gf root σ0 fs env osArgsLen (renderArgs [(key, val)])).1 aD = σ0 aD := by
  have hpass1 : parseStructGo flagBuilder .flag root (σ0, initRegs gf) =
      ((σ0, initRegs gf ++ (leavesOf .flag [] [] root).map mkFlagReg), none) := by
    rw [parseStructGo_eq_run]
    exact runParser_flagBuilder _ σ0 (initRegs gf) hreg
  have hwf1 : ∀ kv ∈ [(key, val)], wfFlagKey kv.1 = true := by
    intro kv hkv
    simp only [List.mem_singleton] at hkv
    subst hkv
    exact hkey
  have hscan : parseConfigFlag gf.cfgFlagNameStr osArgsLen (renderArgs [(key, val)]) =
      some [] := by
    rw [show gf.cfgFlagNameStr = [] from by simp [Gofig.cfgFlagNameStr, hcf]]
    exact parseConfigFlag_render osArgsLen [(key, val)] hwf1
  have hdec : decodeConfigFile fname (.ok doc) σ0 =
      (applyDoc doc σ0, none, [.decoded fname]) := by
    unfold decodeConfigFile
    dsimp only
    rw [if_pos hext]
  have hfilepass : parseConfigFile gf fs osArgsLen (renderArgs [(key, val)]) σ0 =
      (applyDoc doc σ0, none, [.opened fname, .decoded fname]) := by
    unfold parseConfigFile
    rw [hscan]
    dsimp only
    rw [if_neg (by simp : ¬(([] : GoStr) ≠ []))]
    rw [hfile]
    dsimp only
    rw [hdec]
    rfl
  have henvpass : parseStructGo (envDecoder gf.envPfx env) .env root (applyDoc doc σ0) =
      (envApplyAll gf.envPfx env (leavesOf .env [] [] root) (applyDoc doc σ0), none) := by
    rw [parseStructGo_eq_run]
    exact runParser_env gf.envPfx env _ _ henvok
  have hlk1 : ∀ kv ∈ [(key, val)], ∃ q, lookupFlag (initRegs gf ++
      (leavesOf .flag [] [] root).map mkFlagReg) kv.1 = some q ∧
      ∀ a k, q.target = some (a, k) → flagLeafVal k kv.2 ≠ none := by
    intro kv hkv
    simp only [List.mem_singleton] at hkv
    subst hkv
    refine ⟨r, hlook, ?_⟩
    intro a k hak
    rw [htgt] at hak
    simp only [Option.some.injEq, Prod.mk.injEq] at hak
    rw [← hak.2, hvalA]
    simp
  have hflagpass := flagParse_render
    (initRegs gf ++ (leavesOf .flag [] [] root).map mkFlagReg)
    (envApplyAll gf.envPfx env (leavesOf .env [] [] root) (applyDoc doc σ0))
    [(key, val)] hwf1 hlk1
  have hok1 : ∀ a k, r.target = some (a, k) → flagLeafVal k val ≠ none := by
    intro a k hak
    rw [htgt] at hak
    simp only [Option.some.injEq, Prod.mk.injEq] at hak
    rw [← hak.2, hvalA]
    simp
  have happly : applyAsgn (initRegs gf ++ (leavesOf .flag [] [] root).map mkFlagReg)
      (envApplyAll gf.envPfx env (leavesOf .env [] [] root) (applyDoc doc σ0))
      [(key, val)] =
      updState (envApplyAll gf.envPfx env (leavesOf .env [] [] root)
        (applyDoc doc σ0)) aF gvA := by
    simp only [applyAsgn, List.foldl_cons, List.foldl_nil]
    rw [hlook]
    dsimp only
    rw [flagValueSet_char _ r val hok1]
    dsimp only
    unfold flagWrite
    rw [htgt]
    dsimp only
    rw [hvalA]
  have hmain : gofigParse gf root σ0 fs env osArgsLen (renderArgs [(key, val)]) =
      (updState (envApplyAll gf.envPfx env (leavesOf .env [] [] root)
        (applyDoc doc σ0)) aF gvA, none) := by
    unfold gofigParse
    rw [hpass1]
    dsimp only
    rw [hfilepass]
    dsimp only
    rw [henvpass]
    dsimp only
    rw [hflagpass]
    dsimp only
    rw [happly]
    rfl
  refine ⟨hmain, ?_, ?_, ?_, ?_⟩
  · rw [hmain]
    dsimp only
    unfold updState
    rw [if_pos rfl]
  · rw [hmain]
    dsimp only
    unfold updState
    rw [if_neg hEne]
    rw [envApplyAll_point gf.envPfx env (leavesOf .env [] [] root)
      (applyDoc doc σ0) aE ℓE hE hEaddr henvnd]
    rw [hEenv]
    dsimp only
    rw [hEval]
  · rw [hmain]
    dsimp only
    unfold updState
    rw [if_neg hCne]
    rw [envApplyAll_point gf.envPfx env (leavesOf .env [] [] root)
      (applyDoc doc σ0) aC ℓC hC hCaddr henvnd]
    rw [hCenv]
    dsimp only
    unfold applyDoc
    rw [hCdoc]
    rfl
  · rw [hmain]
    dsimp only
    unfold updState
    rw [if_neg hDne]
    rw [envApplyAll_point gf.envPfx env (leavesOf .env [] [] root)
      (applyDoc doc σ0) aD ℓD hD hDaddr henvnd]
    rw [hDenv]
    dsimp only
    unfold applyDoc
    rw [hDdoc]
    rfl

/-- C1 witness: a four-leaf structure where `A` is supplied by flag,
environment and file, `B` by environment and file, `C` by file only and
`D` by nothing; the hypotheses hold and the precedence chain resolves
as claimed. -/
theorem claim_C1_witness :
    (gofigParse ⟨gstr "GF", none, [gstr "conf"]⟩ cexC1root stateZero cexC1fs cexC1env 1
        (renderArgs [(gstr "a", gstr "flagA")])).1 [gstr "A"] = .vstr (gstr "flagA") ∧
    (gofigParse ⟨gstr "GF", none, [gstr "conf"]⟩ cexC1root stateZero cexC1fs cexC1env 1
        (renderArgs [(gstr "a", gstr "flagA")])).1 [gstr "B"] = .vstr (gstr "envB") ∧
    (gofigParse ⟨gstr "GF", none, [gstr "conf"]⟩ cexC1root stateZero cexC1fs cexC1env 1
        (renderArgs [(gstr "a", gstr "flagA")])).1 [gstr "C"] = .vstr (gstr "fileC") ∧
    (gofigParse ⟨gstr "GF", none, [gstr "conf"]⟩ cexC1root stateZero cexC1fs cexC1env 1
        (renderArgs [(gstr "a", gstr "flagA")])).1 [gstr "D"] = stateZero [gstr "D"] := by
  have h := claim_C1 ⟨gstr "GF", none, [gstr "conf"]⟩ cexC1root stateZero cexC1fs cexC1env 1
    (gstr "conf.json") cexC1doc (gstr "a") (gstr "flagA") (gstr "envB")
    ⟨gstr "a", some ([gstr "A"], .kstr)⟩ .kstr
    [gstr "A"] [gstr "B"] [gstr "C"] [gstr "D"]
    ⟨[gstr "b"], [gstr "B"], .kstr, ⟨[], []⟩⟩
    ⟨[gstr "c"], [gstr "C"], .kstr, ⟨[], []⟩⟩
    ⟨[gstr "d"], [gstr "D"], .kstr, ⟨[], []⟩⟩
    (.vstr (gstr "flagA")) (.vstr (gstr "envB")) (.vstr (gstr "fileC"))
    rfl (by decide) rfl (Or.inl (by decide)) (by decide) (by decide)
    (by decide) (by decide) rfl (by decide)
    (by decide) rfl (by decide) (by decide) (by decide)
    (by decide) rfl (by decide) (by decide) (by decide)
    (by decide) rfl (by decide) (by decide) (by decide)
  exact ⟨h.2.1, h.2.2.1, h.2.2.2.1, h.2.2.2.2⟩

/-- C5: a field whose tag for a source is the skip marker `-` is
invisible to that source for the whole resolution: the environment pass
computes the same state whether or not the skipped leaf — or the whole
skipped nested structure — is declared, whatever the environment holds;
while the same field, not skipped for the flag source, still heads the
flag walk's leaf list (so it is registered) and flag values set
through a registration of its kind write its storage. -/
theorem claim_C5 (pfx : GoStr) (env : Env) (name : GoStr) (tags : GoTags)
    (k : Kind) (body rest : Fields) (σ : State)
    (hskip : splitHeadComma tags.envTag = gstr "-") :
    (∀ (parents : List GoStr) (addr : Addr),
      walkFields (envDecoder pfx env) .env parents addr (.fleaf name tags k rest) σ =
        walkFields (envDecoder pfx env) .env parents addr rest σ) ∧
    (∀ (parents : List GoStr) (addr : Addr),
      walkFields (envDecoder pfx env) .env parents addr (.fsub name tags body rest) σ =
        walkFields (envDecoder pfx env) .env parents addr rest σ) ∧
    (splitHeadComma tags.flagTag ≠ gstr "-" →
      ∀ (parents : List GoStr) (addr : Addr),
        leavesOf .flag parents addr (.fleaf name tags k rest) =
          ⟨parents ++ [toLowerStr (if splitHeadComma tags.flagTag = [] then name
              else splitHeadComma tags.flagTag)], addr ++ [name], k, tags⟩ ::
            leavesOf .flag parents addr rest) ∧
    (∀ (σ2 : State) (addr2 : Addr) (keyq val : GoStr) (gv : GoVal),
      flagLeafVal k val = some gv →
      flagValueSet σ2 ⟨keyq, some (addr2, k)⟩ val = .ok (updState σ2 addr2 gv)) := by
  refine ⟨?_, ?_, ?_, ?_⟩
  · intro parents addr
    simp only [walkFields]
    rw [show splitHeadComma (tags.get .env) = gstr "-" from hskip]
    rw [if_pos rfl]
  · intro parents addr
    simp only [walkFields]
    rw [show splitHeadComma (tags.get .env) = gstr "-" from hskip]
    rw [if_pos rfl]
  · intro hflag parents addr
    simp only [leavesOf]
    rw [if_neg (show ¬(splitHeadComma (tags.get .flag) = gstr "-") from hflag)]
    rfl
  · intro σ2 addr2 keyq val gv hgv
    have hch := flagValueSet_char σ2 ⟨keyq, some (addr2, k)⟩ val (by
      intro a2 k2 h2
      simp only [Option.some.injEq, Prod.mk.injEq] at h2
      rw [← h2.2, hgv]
      simp)
    rw [hch]
    unfold flagWrite
    dsimp only
    rw [hgv]

/-- C5 witness: a string leaf tagged `env:"-"` with an empty flag tag:
the environment pass ignores it (and an identically tagged subtree)
under an environment that sets every variable, it heads the flag walk,
and a flag write reaches its storage. -/
theorem claim_C5_witness :
    (∀ (parents : List GoStr) (addr : Addr),
      walkFields (envDecoder (gstr "GF") (fun _ => some (gstr "v"))) .env parents addr
          (.fleaf (gstr "X") ⟨[], gstr "-"⟩ .kstr .fnil) stateZero =
        walkFields (envDecoder (gstr "GF") (fun _ => some (gstr "v"))) .env parents addr
          .fnil stateZero) ∧
    (∀ (parents : List GoStr) (addr : Addr),
      walkFields (envDecoder (gstr "GF") (fun _ => some (gstr "v"))) .env parents addr
          (.fsub (gstr "X") ⟨[], gstr "-"⟩ cexBoolRoot .fnil) stateZero =
        walkFields (envDecoder (gstr "GF") (fun _ => some (gstr "v"))) .env parents addr
          .fnil stateZero) ∧
    (splitHeadComma (GoTags.flagTag ⟨[], gstr "-"⟩) ≠ gstr "-" →
      ∀ (parents : List GoStr) (addr : Addr),
        leavesOf .flag parents addr (.fleaf (gstr "X") ⟨[], gstr "-"⟩ .kstr .fnil) =
          ⟨parents ++ [toLowerStr (if splitHeadComma (GoTags.flagTag ⟨[], gstr "-"⟩) = []
              then gstr "X" else splitHeadComma (GoTags.flagTag ⟨[], gstr "-"⟩))],
            addr ++ [gstr "X"], .kstr, ⟨[], gstr "-"⟩⟩ ::
            leavesOf .flag parents addr .fnil) ∧
    (∀ (σ2 : State) (addr2 : Addr) (keyq val : GoStr) (gv : GoVal),
      flagLeafVal .kstr val = some gv →
      flagValueSet σ2 ⟨keyq, some (addr2, .kstr)⟩ val = .ok (updState σ2 addr2 gv)) :=
  claim_C5 (gstr "GF") (fun _ => some (gstr "v")) (gstr "X") ⟨[], gstr "-"⟩ .kstr
    cexBoolRoot .fnil stateZero (by decide)

/-! ## C6: the environment key refines the spec wording -/

theorem charToNat_ofNat (n : Nat) (h : n < 55296) : (Char.ofNat n).toNat = n := by
  unfold Char.ofNat
  rw [dif_pos (by unfold Nat.isValidChar; omega)]
  rfl

theorem toUpperChar_toLowerChar (c : Char) :
    toUpperChar (toLowerChar c) = toUpperChar c := by
  unfold toLowerChar toUpperChar
  by_cases h : 65 ≤ c.toNat ∧ c.toNat ≤ 90
  · rw [if_pos h]
    have ht : (Char.ofNat (c.toNat + 32)).toNat = c.toNat + 32 :=
      charToNat_ofNat _ (by omega)
    rw [if_pos (by rw [ht]; omega), if_neg (by omega)]
    rw [ht]
    rw [show c.toNat + 32 - 32 = c.toNat from by omega]
    exact Char.ofNat_toNat c
  · rw [if_neg h]

theorem toLowerChar_toLowerChar (c : Char) :
    toLowerChar (toLowerChar c) = toLowerChar c := by
  unfold toLowerChar
  by_cases h : 65 ≤ c.toNat ∧ c.toNat ≤ 90
  · rw [if_pos h]
    have ht : (Char.ofNat (c.toNat + 32)).toNat = c.toNat + 32 :=
      charToNat_ofNat _ (by omega)
    rw [if_neg (by rw [ht]; omega)]
  · rw [if_neg h, if_neg h]

theorem toUpperStr_toLowerStr (s : GoStr) :
    toUpperStr (toLowerStr s) = toUpperStr s := by
  unfold toUpperStr toLowerStr
  rw [List.map_map]
  exact List.map_congr_left fun c _ => toUpperChar_toLowerChar c

theorem toLowerStr_idem (s : GoStr) : toLowerStr (toLowerStr s) = toLowerStr s := by
  unfold toLowerStr
  rw [List.map_map]
  exact List.map_congr_left fun c _ => toLowerChar_toLowerChar c

theorem toUpperStr_append (a b : GoStr) :
    toUpperStr (a ++ b) = toUpperStr a ++ toUpperStr b := by
  unfold toUpperStr
  exact List.map_append toUpperChar a b

theorem joinStr_map_lower (l : List GoStr) :
    joinStr (gstr "_") (l.map toLowerStr) = toLowerStr (joinStr (gstr "_") l) := by
  induction l with
  | nil => rfl
  | cons x xs ih =>
    cases xs with
    | nil => rfl
    | cons y ys =>
      simp only [List.map_cons] at ih ⊢
      simp only [joinStr]
      rw [ih]
      unfold toLowerStr
      simp only [List.map_append]
      rw [show (gstr "_").map toLowerChar = gstr "_" from by decide]

theorem joinStr_cons_ne (sep x : GoStr) (l : List GoStr) (h : l ≠ []) :
    joinStr sep (x :: l) = x ++ sep ++ joinStr sep l := by
  cases l with
  | nil => exact absurd rfl h
  | cons y ys => rfl

/-- The key the code derives over lower-cased segments equals the
spec-worded key over the raw segments. -/
theorem getEnvKey_eq_spec (pfx : GoStr) (segs : List GoStr) (h : segs ≠ []) :
    getEnvKey pfx (segs.map toLowerStr) = specEnvKey pfx segs := by
  unfold getEnvKey specEnvKey
  by_cases hp : pfx ≠ []
  · rw [if_pos hp, if_pos hp]
    rw [joinStr_cons_ne (gstr "_") pfx _ (by simpa using h)]
    rw [joinStr_map_lower]
    rw [toUpperStr_append, toUpperStr_append, toUpperStr_toLowerStr]
    rw [show toUpperStr (gstr "_") = gstr "_" from by decide]
  · rw [if_neg hp, if_neg hp]
    rw [joinStr_map_lower, toUpperStr_toLowerStr]
    rw [List.nil_append]

theorem lower_segment (tag : CfgTag) (n : GoStr) (tg : GoTags) :
    toLowerStr (if splitHeadComma (tg.get tag) = [] then n
      else splitHeadComma (tg.get tag)) = toLowerStr (specSegment tag n tg) := by
  unfold specSegment
  by_cases hk : splitHeadComma (tg.get tag) = []
  · rw [if_pos hk, if_pos hk]
    exact (toLowerStr_idem n).symm
  · rw [if_neg hk, if_neg hk]

/-- The environment walk's (address, path) pairs align with the
spec-worded walk's (address, segments) pairs under lower-casing. -/
theorem envLeaves_align (f : Fields) :
    ∀ (segs : List GoStr) (addr : Addr),
      (leavesOf .env (segs.map toLowerStr) addr f).map (fun ℓ => (ℓ.addr, ℓ.path)) =
        (specEnvLeaves segs addr f).map (fun p => (p.1, p.2.map toLowerStr)) := by
  induction f with
  | fnil => intro _ _; rfl
  | fleaf n tg k r ih =>
    intro segs addr
    simp only [leavesOf, specEnvLeaves]
    by_cases hs : splitHeadComma (tg.get .env) = gstr "-"
    · rw [if_pos hs, if_pos hs]
      exact ih segs addr
    · rw [if_neg hs, if_neg hs]
      simp only [List.map_cons]
      rw [ih segs addr]
      congr 2
      simp only [List.map_append, List.map_cons, List.map_nil]
      rw [lower_segment]
  | fsub n tg body r ihb ihr =>
    intro segs addr
    simp only [leavesOf, specEnvLeaves]
    by_cases hs : splitHeadComma (tg.get .env) = gstr "-"
    · rw [if_pos hs, if_pos hs]
      exact ihr segs addr
    · rw [if_neg hs, if_neg hs]
      simp only [List.map_append]
      rw [ihr segs addr]
      congr 1
      have hseg : (segs.map toLowerStr) ++
          [toLowerStr (if splitHeadComma (tg.get .env) = [] then n
            else splitHeadComma (tg.get .env))] =
          (segs ++ [specSegment .env n tg]).map toLowerStr := by
        simp only [List.map_append, List.map_cons, List.map_nil]
        rw [lower_segment]
      rw [hseg]
      exact ihb (segs ++ [specSegment .env n tg]) (addr ++ [n])

/-- Every entry of the spec-worded walk carries at least one segment. -/
theorem specEnvLeaves_snd_ne (f : Fields) :
    ∀ (segs : List GoStr) (addr : Addr) (p : Addr × List GoStr),
      p ∈ specEnvLeaves segs addr f → p.2 ≠ [] := by
  induction f with
  | fnil => intro _ _ _ h; simp [specEnvLeaves] at h
  | fleaf n tg k r ih =>
    intro segs addr p hp
    simp only [specEnvLeaves] at hp
    by_cases hs : splitHeadComma (tg.get .env) = gstr "-"
    · rw [if_pos hs] at hp
      exact ih segs addr p hp
    · rw [if_neg hs] at hp
      rcases List.mem_cons.mp hp with h1 | h2
      · rw [h1]
        simp
      · exact ih segs addr p h2
  | fsub n tg body r ihb ihr =>
    intro segs addr p hp
    simp only [specEnvLeaves] at hp
    by_cases hs : splitHeadComma (tg.get .env) = gstr "-"
    · rw [if_pos hs] at hp
      exact ihr segs addr p hp
    · rw [if_neg hs] at hp
      rcases List.mem_append.mp hp with h1 | h2
      · exact ihb _ _ p h1
      · exact ihr segs addr p h2

/-- C6: for every leaf the environment pass visits, the resolved key
equals the spec-worded key — the upper-cased underscore-join of the
per-source rename-tag value or, absent one, the lower-cased declared
field name, with the upper-cased prefix and an underscore prepended
when a non-empty prefix is set — over the whole structure. -/
theorem claim_C6 (pfx : GoStr) (root : Fields) :
    (leavesOf .env [] [] root).map (fun ℓ => (ℓ.addr, getEnvKey pfx ℓ.path)) =
      (specEnvLeaves [] [] root).map (fun p => (p.1, specEnvKey pfx p.2)) := by
  have halign := envLeaves_align root [] []
  rw [show (List.map toLowerStr [] : List GoStr) = [] from rfl] at halign
  have h2 : (leavesOf .env [] [] root).map (fun ℓ => (ℓ.addr, getEnvKey pfx ℓ.path)) =
      ((leavesOf .env [] [] root).map (fun ℓ => (ℓ.addr, ℓ.path))).map
        (fun q => (q.1, getEnvKey pfx q.2)) := by
    rw [List.map_map]
    rfl
  rw [h2, halign, List.map_map]
  apply List.map_congr_left
  intro p hp
  simp only [Function.comp]
  rw [getEnvKey_eq_spec pfx p.2 (specEnvLeaves_snd_ne root [] [] p hp)]

end GofigModel